import Mathlib

/-!
# Order service: validation gates and order/line-item consistency

A shallow embedding of `src/app/validator.go`, `src/app/dbinit.go` (the table
row types) and `src/app/app.go` (the handlers `CreateOrder`, `FetchOrder`,
`UpdateOrder`).

* Go `string` is `String`; Go's `len(s)` (a byte count) is `String.utf8ByteSize`.
* Go `int64` fields are `Int`.
* `strconv.Atoi` belongs to the Go library; `Atoi` below follows its contract
  for a 64-bit `int`.
* The gorp `DbMap` over PostgreSQL is an explicit `Store` value that every
  handler receives and returns: the rows of the two tables the handlers touch
  and the next value of each table's auto-increment key. `Insert` hands out the
  next key, `Update` rewrites the row with the key of the struct, `Select`
  filters and orders by key. Database errors are not modelled.
* `time.Now().UnixNano()` is read from `clock : Nat → Int`, where `clock k` is
  the value of the `k`-th reading made while one request is handled.
* The bound request body is the handler's `NewOrderReq` argument and the path
  parameter `id` is its `String` argument; the JSON answer is a `Response`.
-/

namespace OrderService

/-! ## validator.go -/

/-- Decimal digit test of `strconv.Atoi`: the byte lies in `'0'..'9'`. -/
def isDigitByte (c : Char) : Bool := 48 ≤ c.toNat && c.toNat ≤ 57

/-- Value of a run of decimal digits, most significant first
(`n = n*10 + int(ch - '0')` for each byte). -/
def digitsValue (ds : List Char) : Nat :=
  ds.foldl (fun n ch => n * 10 + (ch.toNat - 48)) 0

/-- Go's `strconv.Atoi` on a 64-bit platform: an optional single sign `+` or
`-`, then at least one decimal digit and nothing else; the value has to fit
`int` (`-2^63 .. 2^63 - 1`). `none` stands for a non-nil error. -/
def Atoi (s : String) : Option Int :=
  match s.data with
  | [] => none
  | c :: cs =>
    let neg : Bool := c == '-'
    let ds : List Char := if c == '-' || c == '+' then cs else c :: cs
    if ds.isEmpty then none
    else if !ds.all isDigitByte then none
    else
      let un : Nat := digitsValue ds
      if neg then (if un ≤ 2 ^ 63 then some (-(un : Int)) else none)
      else (if un < 2 ^ 63 then some (un : Int) else none)

/-- Source `isNumber`: true when `strconv.Atoi(id)` returns no error. -/
def isNumber (id : String) : Bool :=
  match Atoi id with
  | some _ => true
  | none => false

/-- Source `isEmpty`: `str == "" || len(str) == 0`. -/
def isEmpty (str : String) : Bool :=
  if str == "" || str.utf8ByteSize == 0 then true else false

/-- Source `isEAN`: `isNumber(str) && len(str) == 13`. -/
def isEAN (str : String) : Bool :=
  if isNumber str && str.utf8ByteSize == 13 then true else false

/-! ## dbinit.go: row types -/

/-- Row of table `orders`. -/
structure Order where
  Id : Int
  CustomerName : String
  Status : String
  CreatedAt : Int
  UpdatedAt : Int
  deriving DecidableEq, Repr

/-- Row of table `order_products`. -/
structure OrderProduct where
  Id : Int
  OrderId : Int
  ProductId : Int
  ProductEan : String
  CustomerName : String
  CreatedAt : Int
  UpdatedAt : Int
  deriving DecidableEq, Repr

/-- Source `Product`; a request body fills `Id` (`product_id`) and
`EanBarcode` (`product_ean`), the handlers read nothing else. -/
structure Product where
  Id : Int
  ProductName : String := ""
  EanBarcode : String
  Category : String := ""
  SubCategory : String := ""
  Description : String := ""
  CreatedAt : Int := 0
  UpdatedAt : Int := 0
  deriving DecidableEq, Repr

/-! ## app.go: request and response types -/

/-- Order status constant `received`. -/
def received : String := "RECEIVED"

/-- Source `NewOrderReq`. -/
structure NewOrderReq where
  CustomerName : String
  Products : List Product
  deriving DecidableEq, Repr

/-- Source `OrderResponse`. -/
structure OrderResponse where
  OrderId : Int
  ProductId : Int
  ProductEan : String
  CustomerName : String
  deriving DecidableEq, Repr

/-- What a handler hands to `c.JSON`: the HTTP status code and the keys of the
`gin.H` body (`error`, `message`, `resourceId`, `order`). -/
structure Response where
  status : Nat
  error : Option String := none
  message : Option String := none
  resourceId : Option Int := none
  order : Option (List OrderResponse) := none
  deriving DecidableEq, Repr

/-! ## The persistence collaborator (gorp `DbMap` over PostgreSQL) -/

/-- Database state: the rows of `orders` and `order_products` and the next
value of each auto-increment primary key. -/
structure Store where
  orders : List Order
  orderProducts : List OrderProduct
  nextOrderId : Int
  nextOrderProductId : Int
  deriving DecidableEq, Repr

namespace Store

/-- Freshly initialised database: no rows, both key sequences at 1. -/
def empty : Store :=
  { orders := [], orderProducts := [], nextOrderId := 1, nextOrderProductId := 1 }

/-- Model of `dbmap.Insert(order)`: the row gets the next key, which is also
written back into the inserted struct. -/
def insertOrder (s : Store) (o : Order) : Store × Order :=
  let o1 : Order := { o with Id := s.nextOrderId }
  ({ s with orders := s.orders ++ [o1], nextOrderId := s.nextOrderId + 1 }, o1)

/-- Model of `dbmap.Insert(orderProduct)`. -/
def insertOrderProduct (s : Store) (p : OrderProduct) : Store × OrderProduct :=
  let p1 : OrderProduct := { p with Id := s.nextOrderProductId }
  ({ s with orderProducts := s.orderProducts ++ [p1],
            nextOrderProductId := s.nextOrderProductId + 1 }, p1)

/-- Model of `dbmap.SelectOne(&order, "SELECT * FROM orders where order_id=<n>")`:
exactly one matching row is returned, no row or several rows is an error. -/
def selectOneOrder (s : Store) (n : Int) : Option Order :=
  match s.orders.filter (fun o => o.Id == n) with
  | [o] => some o
  | _ => none

/-- Model of `dbmap.Select(&orderProducts,
"SELECT * FROM order_products where order_id=<n> ORDER BY order_product_id")`. -/
def selectOrderProducts (s : Store) (n : Int) : List OrderProduct :=
  (s.orderProducts.filter (fun p => p.OrderId == n)).insertionSort
    (fun a b => a.Id ≤ b.Id)

/-- Model of `dbmap.Update(&order)`: the row with the same primary key takes
all columns of the struct. -/
def updateOrder (s : Store) (o : Order) : Store :=
  { s with orders := s.orders.map (fun r => if r.Id = o.Id then o else r) }

/-- Model of `dbmap.Update(&orderProduct)`. -/
def updateOrderProduct (s : Store) (p : OrderProduct) : Store :=
  { s with orderProducts :=
      s.orderProducts.map (fun r => if r.Id = p.Id then p else r) }

end Store

/-! ## app.go: handlers -/

/-- The `for _, product := range orderReq.Products` loop of `CreateOrder` and
the final `201` answer; `t` counts the clock readings made so far. -/
def createLoop (orderId : Int) (customerName : String) (clock : Nat → Int) :
    List Product → Nat → Store → Store × Response
  | [], _, s =>
    (s, { status := 201, message := some "Order Created Successfully!",
          resourceId := some orderId })
  | product :: rest, t, s =>
    if isEAN product.EanBarcode then
      let orderProduct : OrderProduct :=
        { Id := 0, OrderId := orderId, ProductId := product.Id,
          ProductEan := product.EanBarcode, CustomerName := customerName,
          CreatedAt := clock t, UpdatedAt := clock (t + 1) }
      createLoop orderId customerName clock rest (t + 2)
        (s.insertOrderProduct orderProduct).1
    else
      (s, { status := 400,
            error := some ("Product EAN is invalid : " ++ product.EanBarcode) })

/-- Source `CreateOrder`. -/
def CreateOrder (s : Store) (orderReq : NewOrderReq) (clock : Nat → Int) :
    Store × Response :=
  if isEmpty orderReq.CustomerName then
    (s, { status := 400,
          error := some "Customer name cannot be empty. Pass a valid string value and try again !" })
  else if orderReq.Products.length == 0 then
    (s, { status := 400,
          error := some "Products cannot be empty. An order need to have atleast 1 product. Add a product and try again !" })
  else
    let order : Order :=
      { Id := 0, CustomerName := orderReq.CustomerName, Status := received,
        CreatedAt := clock 0, UpdatedAt := clock 1 }
    let ins := s.insertOrder order
    createLoop ins.2.Id orderReq.CustomerName clock orderReq.Products 2 ins.1

/-- Projection of one `order_products` row into the response model. -/
def toOrderResponse (op : OrderProduct) : OrderResponse :=
  { OrderId := op.OrderId, ProductId := op.ProductId,
    ProductEan := op.ProductEan, CustomerName := op.CustomerName }

/-- The number PostgreSQL compares `order_id` with when the query text is
`... where order_id=` followed by `orderId`. The handlers build that text only
from an `orderId` that passed `isNumber`, that is an optionally signed decimal
numeral, which the database reads as the integer `Atoi` returns. -/
def queryId (orderId : String) : Int := (Atoi orderId).getD 0

/-- Source `FetchOrder`. -/
def FetchOrder (s : Store) (orderId : String) : Store × Response :=
  if isNumber orderId then
    let orderProducts := s.selectOrderProducts (queryId orderId)
    if orderProducts.length == 0 then
      (s, { status := 404,
            error := some "No order with requested ID exists in the table. Invalid ID." })
    else
      (s, { status := 200, message := some "Order Details Fetched Successfully!",
            order := some (orderProducts.map toOrderResponse) })
  else
    (s, { status := 400, error := some "Order ID passed is not a valid number." })

/-- The `for index, orderProduct := range orderProducts` loop of
`UpdateOrder`. The header update has read the clock once, so the row at
`index` gets `clock (index + 1)`. `orderReq.Products[index]` is in range
whenever the loop runs, the lengths having been compared before. -/
def updateLoop (orderReq : NewOrderReq) (clock : Nat → Int) :
    List OrderProduct → Nat → Store → Store
  | [], _, s => s
  | orderProduct :: rest, index, s =>
    match orderReq.Products[index]? with
    | none => s
    | some product =>
      let orderProduct1 : OrderProduct :=
        { orderProduct with
          CustomerName := orderReq.CustomerName, ProductId := product.Id,
          ProductEan := product.EanBarcode, UpdatedAt := clock (index + 1) }
      updateLoop orderReq clock rest (index + 1) (s.updateOrderProduct orderProduct1)

/-- The all-zero `Order{}` value. -/
def zeroOrder : Order :=
  { Id := 0, CustomerName := "", Status := "", CreatedAt := 0, UpdatedAt := 0 }

/-- Source `UpdateOrder`. -/
def UpdateOrder (s : Store) (orderId : String) (orderReq : NewOrderReq)
    (clock : Nat → Int) : Store × Response :=
  if isNumber orderId then
    match s.selectOneOrder (queryId orderId) with
    | none =>
      (s, { status := 404,
            error := some "No order with requested ID exists in the table. Invalid ID." })
    | some order =>
      if order = zeroOrder ∨ order.CustomerName.utf8ByteSize = 0 then
        (s, { status := 404,
              error := some "No order with requested ID exists in the table. Invalid ID." })
      else
        let order1 : Order :=
          if orderReq.CustomerName = order.CustomerName then
            { order with UpdatedAt := clock 0 }
          else
            { order with CustomerName := orderReq.CustomerName, UpdatedAt := clock 0 }
        let s1 := s.updateOrder order1
        let orderProducts := s1.selectOrderProducts (queryId orderId)
        if orderProducts.length == 0 then
          (s1, { status := 404,
                 error := some "No products found with requested order ID. Aborting!" })
        else if orderProducts.length != orderReq.Products.length then
          (s1, { status := 400,
                 error := some "v1 Update API supports only product details updation in the existing order. New products addition and existing products deletion from existing order will be supported in future API ver. Aborting!" })
        else
          (updateLoop orderReq clock orderProducts 0 s1,
           { status := 200, message := some "Order Updated Successfully!",
             resourceId := some order1.Id })
  else
    (s, { status := 400, error := some "Order ID passed is not a valid number." })

/-! ## Reachable stores -/

/-- Stores reachable from the empty database through the three handlers. -/
inductive Reachable : Store → Prop
  | empty : Reachable Store.empty
  | create (s : Store) (req : NewOrderReq) (clock : Nat → Int) :
      Reachable s → Reachable (CreateOrder s req clock).1
  | fetch (s : Store) (id : String) :
      Reachable s → Reachable (FetchOrder s id).1
  | update (s : Store) (id : String) (req : NewOrderReq) (clock : Nat → Int) :
      Reachable s → Reachable (UpdateOrder s id req clock).1

/-- Primary keys: no two rows of a table share their key. -/
def Store.KeysUnique (s : Store) : Prop :=
  (s.orders.map (fun o => o.Id)).Nodup ∧ (s.orderProducts.map (fun p => p.Id)).Nodup

/-- An order row with its `UpdatedAt` column blanked. -/
def Order.eraseUpdatedAt (o : Order) : Order := { o with UpdatedAt := 0 }

/-- A line-item row with its `UpdatedAt` column blanked. -/
def OrderProduct.eraseUpdatedAt (p : OrderProduct) : OrderProduct :=
  { p with UpdatedAt := 0 }

/-- The store with every `UpdatedAt` column blanked: what is left to compare
when update times are to be ignored. -/
def Store.eraseUpdatedAt (s : Store) : Store :=
  { s with orders := s.orders.map Order.eraseUpdatedAt,
           orderProducts := s.orderProducts.map OrderProduct.eraseUpdatedAt }

/-- The rows `UpdateOrder` writes for the stored line items `items` (in
ascending key order) and the request products, pairing them by position; the
row at position `k` carries `clock (k + 1)` as its update time. -/
def updatedRows (customerName : String) (clock : Nat → Int) :
    List OrderProduct → List Product → Nat → List OrderProduct
  | item :: items, product :: products, k =>
    { item with CustomerName := customerName, ProductId := product.Id,
                ProductEan := product.EanBarcode, UpdatedAt := clock (k + 1) }
      :: updatedRows customerName clock items products (k + 1)
  | _, _, _ => []

/-- Fixed clock used in examples: the `k`-th reading is `1000 + k`. -/
def sampleClock : Nat → Int := fun k => 1000 + k

/-- Rows `CreateOrder` inserts for `products`, the first getting the key
`key` and the clock readings `t` and `t + 1`. -/
def createdRows (orderId : Int) (customerName : String) (clock : Nat → Int) :
    List Product → Int → Nat → List OrderProduct
  | [], _, _ => []
  | product :: rest, key, t =>
    { Id := key, OrderId := orderId, ProductId := product.Id,
      ProductEan := product.EanBarcode, CustomerName := customerName,
      CreatedAt := clock t, UpdatedAt := clock (t + 1) }
      :: createdRows orderId customerName clock rest (key + 1) (t + 2)

/-- The header row `UpdateOrder` writes back: the request's customer name and
the first clock reading, the other columns as loaded. -/
def headerAfter (o : Order) (req : NewOrderReq) (clock : Nat → Int) : Order :=
  { o with CustomerName := req.CustomerName, UpdatedAt := clock 0 }

/-- What every reachable store satisfies: keys are below the next key of
their table and pairwise distinct, and every line item points to an order key
that has been handed out. -/
structure Store.Inv (s : Store) : Prop where
  nextPos : 1 ≤ s.nextOrderId
  orderKeys : ∀ o ∈ s.orders, o.Id < s.nextOrderId
  orderNodup : (s.orders.map (fun o => o.Id)).Nodup
  itemKeys : ∀ p ∈ s.orderProducts, p.Id < s.nextOrderProductId
  itemNodup : (s.orderProducts.map (fun p => p.Id)).Nodup
  itemOrder : ∀ p ∈ s.orderProducts, p.OrderId < s.nextOrderId

/-- Number of line items stored for the order key `n`. -/
def Store.lineItemCount (s : Store) (n : Int) : Nat :=
  (s.orderProducts.filter (fun p => p.OrderId == n)).length

/-- The row that stands in the table for `r` once the rows `us` have been
written back by key: the first of `us` with the key of `r`, or `r` itself. -/
def replaceRows (us : List OrderProduct) (r : OrderProduct) : OrderProduct :=
  match us.find? (fun u => u.Id == r.Id) with
  | some u => u
  | none => r

/-- A product with a well-formed EAN-13 code. -/
def sampleProduct : Product := { Id := 1, EanBarcode := "1234567890123" }

/-- A second product with a well-formed EAN-13 code. -/
def otherProduct : Product := { Id := 2, EanBarcode := "9999999999999" }

/-- A product whose code is too short. -/
def shortEanProduct : Product := { Id := 3, EanBarcode := "12345" }

/-- A product whose code is a sign followed by twelve digits. -/
def signedEanProduct : Product := { Id := 4, EanBarcode := "+123456789012" }

/-- The store after `Alice` has ordered `sampleProduct` on an empty database. -/
def aliceStore : Store :=
  (CreateOrder Store.empty ⟨"Alice", [sampleProduct]⟩ sampleClock).1

/-- The store after a Create request whose first EAN is rejected: a header
and no line item. -/
def headerOnlyStore : Store :=
  (CreateOrder Store.empty ⟨"Carol", [shortEanProduct]⟩ sampleClock).1

/-- The store after an Update of Alice's order that carries an empty customer
name. -/
def blankedStore : Store :=
  (UpdateOrder aliceStore "1" ⟨"", [sampleProduct]⟩ sampleClock).1

/-- The store after Bob has ordered two products on top of Alice's order:
order 2 has the line items 2 and 3. -/
def bobStore : Store :=
  (CreateOrder aliceStore ⟨"Bob", [otherProduct, sampleProduct]⟩ sampleClock).1

/-! ## Validation lemmas -/

theorem utf8ByteSize_eq_zero_iff (s : String) : s.utf8ByteSize = 0 ↔ s = "" := by
  cases s with
  | mk cs =>
    rw [String.utf8ByteSize_mk, String.utf8Len_eq_zero]
    constructor
    · intro h; rw [h]
    · intro h; exact congrArg String.data h

theorem isEmpty_eq_true_iff (s : String) : isEmpty s = true ↔ s = "" := by
  unfold isEmpty
  constructor
  · intro h
    by_contra hne
    have h1 : (s == "") = false := by simpa using hne
    have h2 : s.utf8ByteSize ≠ 0 := fun h0 => hne ((utf8ByteSize_eq_zero_iff s).1 h0)
    simp [h1, h2] at h
  · intro h; subst h; rfl

theorem isEmpty_eq_false_iff (s : String) : isEmpty s = false ↔ s ≠ "" := by
  rw [ne_eq, ← isEmpty_eq_true_iff]; simp

theorem isNumber_eq_false_iff (id : String) : isNumber id = false ↔ Atoi id = none := by
  unfold isNumber
  cases Atoi id <;> simp

theorem isNumber_eq_true_iff (id : String) : isNumber id = true ↔ ∃ n, Atoi id = some n := by
  unfold isNumber
  cases Atoi id <;> simp

theorem isNumber_of_Atoi {id : String} {n : Int} (h : Atoi id = some n) :
    isNumber id = true := (isNumber_eq_true_iff id).2 ⟨n, h⟩

theorem queryId_of_Atoi {id : String} {n : Int} (h : Atoi id = some n) :
    queryId id = n := by
  unfold queryId
  rw [h]; rfl

/-! ## Create: the validation gates -/

/-- C4. A Create request with an empty customer name (whatever its products)
or with no product is answered 400 and leaves the store as it was: neither a
header nor a line item is written. -/
theorem CreateOrder_rejects_empty_input (s : Store) (req : NewOrderReq)
    (clock : Nat → Int) (h : req.CustomerName = "" ∨ req.Products = []) :
    (CreateOrder s req clock).2.status = 400 ∧ (CreateOrder s req clock).1 = s := by
  unfold CreateOrder
  by_cases hn : isEmpty req.CustomerName = true
  · simp [hn]
  · have hname : req.CustomerName ≠ "" := fun h0 => hn ((isEmpty_eq_true_iff _).2 h0)
    have hp : req.Products = [] := h.resolve_left hname
    simp [hn, hp]

theorem CreateOrder_rejects_empty_input_witness :
    ((("" : String) = "" ∨ [shortEanProduct] = ([] : List Product)) ∧
      (CreateOrder aliceStore ⟨"", [shortEanProduct]⟩ sampleClock).2.status = 400 ∧
      (CreateOrder aliceStore ⟨"", [shortEanProduct]⟩ sampleClock).1 = aliceStore) ∧
    ((("Dora" : String) = "" ∨ ([] : List Product) = []) ∧
      (CreateOrder aliceStore ⟨"Dora", []⟩ sampleClock).2.status = 400 ∧
      (CreateOrder aliceStore ⟨"Dora", []⟩ sampleClock).1 = aliceStore) :=
  ⟨⟨Or.inl rfl,
      CreateOrder_rejects_empty_input aliceStore ⟨"", [shortEanProduct]⟩ sampleClock (Or.inl rfl)⟩,
   ⟨Or.inr rfl,
      CreateOrder_rejects_empty_input aliceStore ⟨"Dora", []⟩ sampleClock (Or.inr rfl)⟩⟩

/-- C3 (evaluation at the failing input). `isEAN` accepts a sign followed by
twelve digits, which is not a string of thirteen decimal digits, and a Create
request carrying such a code is answered 201 with the code stored as given. -/
theorem isEAN_accepts_signed_twelve_digits :
    isEAN "+123456789012" = true ∧ isEAN "-123456789012" = true ∧
    ("+123456789012".data.all isDigitByte) = false ∧
    (CreateOrder Store.empty ⟨"Alice", [signedEanProduct]⟩ sampleClock).2.status = 201 ∧
    (CreateOrder Store.empty ⟨"Alice", [signedEanProduct]⟩ sampleClock).1.orderProducts.map
        (fun p => p.ProductEan) = ["+123456789012"] := by
  decide

/-! ## Create: what the product loop writes -/

theorem createdRows_length (orderId : Int) (name : String) (clock : Nat → Int)
    (ps : List Product) : ∀ (key : Int) (t : Nat),
    (createdRows orderId name clock ps key t).length = ps.length := by
  induction ps with
  | nil => intro key t; rfl
  | cons p ps ih => intro key t; simp [createdRows, ih]

/-- As long as the codes pass `isEAN`, the loop of `CreateOrder` appends one row
per product and goes on with what is left of the list. -/
theorem createLoop_append_valid (orderId : Int) (name : String) (clock : Nat → Int)
    (pre rest : List Product) : ∀ (t : Nat) (s : Store),
    (∀ p ∈ pre, isEAN p.EanBarcode = true) →
    createLoop orderId name clock (pre ++ rest) t s =
      createLoop orderId name clock rest (t + 2 * pre.length)
        { s with
          orderProducts :=
            s.orderProducts ++ createdRows orderId name clock pre s.nextOrderProductId t,
          nextOrderProductId := s.nextOrderProductId + pre.length } := by
  induction pre with
  | nil => intro t s _; simp [createdRows]
  | cons p ps ih =>
    intro t s h
    have hp : isEAN p.EanBarcode = true := h p (List.mem_cons_self _ _)
    have hps : ∀ q ∈ ps, isEAN q.EanBarcode = true :=
      fun q hq => h q (List.mem_cons_of_mem _ hq)
    rw [List.cons_append, createLoop, if_pos hp, ih _ _ hps]
    have e1 : t + 2 + 2 * ps.length = t + 2 * (p :: ps).length := by
      simp only [List.length_cons]; ring
    rw [e1]
    congr 1
    simp only [Store.insertOrderProduct, createdRows, List.append_assoc,
      List.singleton_append, List.length_cons, Nat.cast_add, Nat.cast_one]
    congr 1
    ring

/-- C10. With a non-empty customer name and the first code failing `isEAN` at
position `k`, `CreateOrder` answers 400 with a message naming that code, and the
store afterwards is the store before plus one header (status `RECEIVED`, the
given customer name) and `k` line items, one for each of the first `k`
products in input order; nothing is written for position `k` or later and
nothing is taken back. -/
theorem CreateOrder_stops_at_bad_ean (s : Store) (req : NewOrderReq) (clock : Nat → Int)
    (k : Nat) (bad : Product) (hname : req.CustomerName ≠ "")
    (hk : req.Products[k]? = some bad)
    (hpre : ∀ p ∈ req.Products.take k, isEAN p.EanBarcode = true)
    (hbad : isEAN bad.EanBarcode = false) :
    CreateOrder s req clock =
      ({ orders := s.orders ++
            [{ Id := s.nextOrderId, CustomerName := req.CustomerName,
               Status := "RECEIVED", CreatedAt := clock 0, UpdatedAt := clock 1 }],
         orderProducts := s.orderProducts ++
            createdRows s.nextOrderId req.CustomerName clock (req.Products.take k)
              s.nextOrderProductId 2,
         nextOrderId := s.nextOrderId + 1,
         nextOrderProductId := s.nextOrderProductId + k },
       { status := 400,
         error := some ("Product EAN is invalid : " ++ bad.EanBarcode) }) ∧
    (createdRows s.nextOrderId req.CustomerName clock (req.Products.take k)
        s.nextOrderProductId 2).length = k := by
  obtain ⟨hlt, hget⟩ := List.getElem?_eq_some_iff.1 hk
  have hsplit : req.Products = req.Products.take k ++ bad :: req.Products.drop (k + 1) := by
    rw [← hget, ← List.drop_eq_getElem_cons hlt, List.take_append_drop]
  have hlen : (req.Products.take k).length = k := by
    rw [List.length_take]; omega
  have hne : isEmpty req.CustomerName = false := (isEmpty_eq_false_iff _).2 hname
  have hnz : (req.Products.length == 0) = false := by
    have : req.Products.length ≠ 0 := by omega
    simpa using this
  refine ⟨?_, by rw [createdRows_length, hlen]⟩
  unfold CreateOrder
  rw [hne, hnz]
  simp only [Bool.false_eq_true, if_false]
  conv_lhs => rw [hsplit]
  rw [createLoop_append_valid _ _ _ _ _ _ _ hpre, createLoop, hbad, hlen]
  simp [Store.insertOrder, received]

theorem CreateOrder_stops_at_bad_ean_witness :
    (CreateOrder aliceStore ⟨"Bob", [otherProduct, shortEanProduct, sampleProduct]⟩
        sampleClock).1.orderProducts.map (fun p => (p.Id, p.OrderId, p.ProductId))
      = [(1, 1, 1), (2, 2, 2)] ∧
    (CreateOrder aliceStore ⟨"Bob", [otherProduct, shortEanProduct, sampleProduct]⟩
        sampleClock).2.error = some "Product EAN is invalid : 12345" := by
  have h := (CreateOrder_stops_at_bad_ean aliceStore
    ⟨"Bob", [otherProduct, shortEanProduct, sampleProduct]⟩ sampleClock 1 shortEanProduct
    (by decide) (by decide) (by decide) (by decide)).1
  rw [h]
  decide

/-! ## Invariant of the reachable stores -/

theorem Store.Inv.keysUnique {s : Store} (h : s.Inv) : s.KeysUnique :=
  ⟨h.orderNodup, h.itemNodup⟩

theorem Store.inv_empty : Store.empty.Inv := by
  constructor <;> simp [Store.empty]

theorem nodup_append_fresh (ks : List Int) (k : Int) (hn : ks.Nodup)
    (hlt : ∀ x ∈ ks, x < k) : (ks ++ [k]).Nodup := by
  rw [List.nodup_append]
  refine ⟨hn, List.nodup_singleton k, ?_⟩
  intro x hx hk
  rw [List.mem_singleton] at hk
  subst hk
  exact lt_irrefl _ (hlt _ hx)

theorem Store.Inv.insertOrder {s : Store} (h : s.Inv) (o : Order) :
    (s.insertOrder o).1.Inv := by
  constructor
  · show 1 ≤ s.nextOrderId + 1
    have := h.nextPos; omega
  · intro x hx
    show x.Id < s.nextOrderId + 1
    have hx1 : x ∈ s.orders ++ [({ o with Id := s.nextOrderId } : Order)] := hx
    rw [List.mem_append, List.mem_singleton] at hx1
    rcases hx1 with hx1 | hx1
    · have := h.orderKeys x hx1; omega
    · subst hx1; show s.nextOrderId < s.nextOrderId + 1; omega
  · show ((s.orders ++ [({ o with Id := s.nextOrderId } : Order)]).map
        (fun o => o.Id)).Nodup
    rw [List.map_append]
    refine nodup_append_fresh _ _ h.orderNodup ?_
    intro x hx
    obtain ⟨r, hr, rfl⟩ := List.mem_map.1 hx
    exact h.orderKeys r hr
  · exact h.itemKeys
  · exact h.itemNodup
  · intro p hp
    show p.OrderId < s.nextOrderId + 1
    have := h.itemOrder p hp; omega

theorem Store.Inv.insertOrderProduct {s : Store} (h : s.Inv) (p : OrderProduct)
    (hp : p.OrderId < s.nextOrderId) : (s.insertOrderProduct p).1.Inv := by
  constructor
  · exact h.nextPos
  · exact h.orderKeys
  · exact h.orderNodup
  · intro x hx
    show x.Id < s.nextOrderProductId + 1
    have hx1 : x ∈ s.orderProducts ++
        [({ p with Id := s.nextOrderProductId } : OrderProduct)] := hx
    rw [List.mem_append, List.mem_singleton] at hx1
    rcases hx1 with hx1 | hx1
    · have := h.itemKeys x hx1; omega
    · subst hx1; show s.nextOrderProductId < s.nextOrderProductId + 1; omega
  · show ((s.orderProducts ++
        [({ p with Id := s.nextOrderProductId } : OrderProduct)]).map (fun p => p.Id)).Nodup
    rw [List.map_append]
    refine nodup_append_fresh _ _ h.itemNodup ?_
    intro x hx
    obtain ⟨r, hr, rfl⟩ := List.mem_map.1 hx
    exact h.itemKeys r hr
  · intro x hx
    have hx1 : x ∈ s.orderProducts ++
        [({ p with Id := s.nextOrderProductId } : OrderProduct)] := hx
    rw [List.mem_append, List.mem_singleton] at hx1
    rcases hx1 with hx1 | hx1
    · exact h.itemOrder x hx1
    · subst hx1; exact hp

theorem createLoop_inv (orderId : Int) (name : String) (clock : Nat → Int)
    (ps : List Product) : ∀ (t : Nat) (s : Store), s.Inv → orderId < s.nextOrderId →
    (createLoop orderId name clock ps t s).1.Inv := by
  induction ps with
  | nil => intro t s h _; exact h
  | cons p ps ih =>
    intro t s h hid
    rw [createLoop]
    split
    · exact ih _ _ (h.insertOrderProduct _ hid) hid
    · exact h

theorem CreateOrder_inv (s : Store) (req : NewOrderReq) (clock : Nat → Int)
    (h : s.Inv) : (CreateOrder s req clock).1.Inv := by
  unfold CreateOrder
  split
  · exact h
  · split
    · exact h
    · refine createLoop_inv _ _ _ _ _ _ (h.insertOrder _) ?_
      show s.nextOrderId < s.nextOrderId + 1
      omega

theorem FetchOrder_store (s : Store) (id : String) : (FetchOrder s id).1 = s := by
  unfold FetchOrder
  split
  · dsimp only
    split <;> rfl
  · rfl

/-! ## Table lemmas for `Update` -/

theorem map_replace_order_keys (l : List Order) (o : Order) :
    (l.map (fun r => if r.Id = o.Id then o else r)).map (fun r => r.Id)
      = l.map (fun r => r.Id) := by
  rw [List.map_map]
  apply List.map_congr_left
  intro r _
  show (if r.Id = o.Id then o else r).Id = r.Id
  split
  · next h => exact h.symm
  · rfl

theorem map_replace_item_keys (l : List OrderProduct) (p : OrderProduct) :
    (l.map (fun r => if r.Id = p.Id then p else r)).map (fun r => r.Id)
      = l.map (fun r => r.Id) := by
  rw [List.map_map]
  apply List.map_congr_left
  intro r _
  show (if r.Id = p.Id then p else r).Id = r.Id
  split
  · next h => exact h.symm
  · rfl

theorem mem_of_keys_eq_order {l1 l2 : List Order}
    (h : l1.map (fun r => r.Id) = l2.map (fun r => r.Id)) {x : Order} (hx : x ∈ l1) :
    ∃ y ∈ l2, y.Id = x.Id := by
  have : x.Id ∈ l2.map (fun r => r.Id) := h ▸ List.mem_map_of_mem _ hx
  obtain ⟨y, hy, hyx⟩ := List.mem_map.1 this
  exact ⟨y, hy, hyx⟩

theorem mem_of_keys_eq_item {l1 l2 : List OrderProduct}
    (h : l1.map (fun r => r.Id) = l2.map (fun r => r.Id)) {x : OrderProduct}
    (hx : x ∈ l1) : ∃ y ∈ l2, y.Id = x.Id := by
  have : x.Id ∈ l2.map (fun r => r.Id) := h ▸ List.mem_map_of_mem _ hx
  obtain ⟨y, hy, hyx⟩ := List.mem_map.1 this
  exact ⟨y, hy, hyx⟩

theorem Store.Inv.updateOrder {s : Store} (h : s.Inv) (o : Order) :
    (s.updateOrder o).Inv := by
  have hk : (s.updateOrder o).orders.map (fun r => r.Id) = s.orders.map (fun r => r.Id) :=
    map_replace_order_keys s.orders o
  constructor
  · exact h.nextPos
  · intro x hx
    obtain ⟨y, hy, hyx⟩ := mem_of_keys_eq_order hk hx
    rw [← hyx]; exact h.orderKeys y hy
  · rw [hk]; exact h.orderNodup
  · exact h.itemKeys
  · exact h.itemNodup
  · exact h.itemOrder

theorem Store.Inv.updateOrderProduct {s : Store} (h : s.Inv) (p : OrderProduct)
    (hp : p.OrderId < s.nextOrderId) : (s.updateOrderProduct p).Inv := by
  have hk : (s.updateOrderProduct p).orderProducts.map (fun r => r.Id)
      = s.orderProducts.map (fun r => r.Id) := map_replace_item_keys s.orderProducts p
  constructor
  · exact h.nextPos
  · exact h.orderKeys
  · exact h.orderNodup
  · intro x hx
    obtain ⟨y, hy, hyx⟩ := mem_of_keys_eq_item hk hx
    rw [← hyx]; exact h.itemKeys y hy
  · rw [hk]; exact h.itemNodup
  · intro x hx
    have hx1 : x ∈ s.orderProducts.map (fun r => if r.Id = p.Id then p else r) := hx
    obtain ⟨r, hr, rfl⟩ := List.mem_map.1 hx1
    split
    · exact hp
    · exact h.itemOrder r hr

theorem updateLoop_inv (req : NewOrderReq) (clock : Nat → Int)
    (items : List OrderProduct) : ∀ (index : Nat) (s : Store), s.Inv →
    (∀ item ∈ items, item.OrderId < s.nextOrderId) →
    (updateLoop req clock items index s).Inv := by
  induction items with
  | nil => intro index s h _; exact h
  | cons item items ih =>
    intro index s h hb
    rw [updateLoop]
    split
    · exact h
    · exact ih _ _ (h.updateOrderProduct _ (hb item (List.mem_cons_self _ _)))
        (fun x hx => hb x (List.mem_cons_of_mem _ hx))

theorem mem_selectOrderProducts {s : Store} {n : Int} {p : OrderProduct} :
    p ∈ s.selectOrderProducts n ↔ p ∈ s.orderProducts ∧ p.OrderId = n := by
  unfold Store.selectOrderProducts
  rw [List.mem_insertionSort, List.mem_filter]
  simp

/-! ## `UpdateOrder`, branch by branch -/

theorem UpdateOrder_of_not_number {s : Store} {id : String} {req : NewOrderReq}
    {clock : Nat → Int} (hid : Atoi id = none) :
    UpdateOrder s id req clock =
      (s, { status := 400, error := some "Order ID passed is not a valid number." }) := by
  simp only [UpdateOrder, (isNumber_eq_false_iff id).2 hid, Bool.false_eq_true, if_false]

theorem UpdateOrder_of_no_header {s : Store} {id : String} {req : NewOrderReq}
    {clock : Nat → Int} {n : Int} (hid : Atoi id = some n)
    (ho : s.selectOneOrder n = none) :
    UpdateOrder s id req clock =
      (s, { status := 404,
            error := some "No order with requested ID exists in the table. Invalid ID." }) := by
  simp only [UpdateOrder, isNumber_of_Atoi hid, queryId_of_Atoi hid, ho, if_true]

theorem UpdateOrder_of_blank_header {s : Store} {id : String} {req : NewOrderReq}
    {clock : Nat → Int} {n : Int} {o : Order} (hid : Atoi id = some n)
    (ho : s.selectOneOrder n = some o)
    (hz : o = zeroOrder ∨ o.CustomerName.utf8ByteSize = 0) :
    UpdateOrder s id req clock =
      (s, { status := 404,
            error := some "No order with requested ID exists in the table. Invalid ID." }) := by
  simp only [UpdateOrder, isNumber_of_Atoi hid, queryId_of_Atoi hid, ho, if_true]
  rw [if_pos hz]

theorem UpdateOrder_of_header {s : Store} {id : String} {req : NewOrderReq}
    {clock : Nat → Int} {n : Int} {o : Order} (hid : Atoi id = some n)
    (ho : s.selectOneOrder n = some o)
    (hz : ¬ (o = zeroOrder ∨ o.CustomerName.utf8ByteSize = 0)) :
    UpdateOrder s id req clock =
      if (s.selectOrderProducts n).length = 0 then
        (s.updateOrder (headerAfter o req clock),
         { status := 404,
           error := some "No products found with requested order ID. Aborting!" })
      else if (s.selectOrderProducts n).length ≠ req.Products.length then
        (s.updateOrder (headerAfter o req clock),
         { status := 400,
           error := some "v1 Update API supports only product details updation in the existing order. New products addition and existing products deletion from existing order will be supported in future API ver. Aborting!" })
      else
        (updateLoop req clock (s.selectOrderProducts n) 0
            (s.updateOrder (headerAfter o req clock)),
         { status := 200, message := some "Order Updated Successfully!",
           resourceId := some o.Id }) := by
  have h1 : (if req.CustomerName = o.CustomerName then
        ({ o with UpdatedAt := clock 0 } : Order)
      else { o with CustomerName := req.CustomerName, UpdatedAt := clock 0 })
      = headerAfter o req clock := by
    unfold headerAfter
    split
    · next h => rw [h]
    · rfl
  simp only [UpdateOrder, isNumber_of_Atoi hid, queryId_of_Atoi hid, ho, if_true]
  rw [if_neg hz]
  simp only [h1]
  have h2 : ∀ x : Order, (s.updateOrder x).selectOrderProducts n = s.selectOrderProducts n :=
    fun _ => rfl
  simp only [h2, beq_iff_eq, bne_iff_ne, headerAfter]

theorem UpdateOrder_inv (s : Store) (id : String) (req : NewOrderReq)
    (clock : Nat → Int) (h : s.Inv) : (UpdateOrder s id req clock).1.Inv := by
  cases hid : Atoi id with
  | none => rw [UpdateOrder_of_not_number hid]; exact h
  | some n =>
    cases ho : s.selectOneOrder n with
    | none => rw [UpdateOrder_of_no_header hid ho]; exact h
    | some o =>
      by_cases hz : o = zeroOrder ∨ o.CustomerName.utf8ByteSize = 0
      · rw [UpdateOrder_of_blank_header hid ho hz]; exact h
      · rw [UpdateOrder_of_header hid ho hz]
        split
        · exact h.updateOrder _
        · split
          · exact h.updateOrder _
          · refine updateLoop_inv _ _ _ _ _ (h.updateOrder _) ?_
            intro item hitem
            exact h.itemOrder item (mem_selectOrderProducts.1 hitem).1

/-- Every store reachable through the handlers satisfies the invariant. -/
theorem Reachable.inv {s : Store} (h : Reachable s) : s.Inv := by
  induction h with
  | empty => exact Store.inv_empty
  | create s req clock _ ih => exact CreateOrder_inv s req clock ih
  | fetch s id _ ih => rw [FetchOrder_store]; exact ih
  | update s id req clock _ ih => exact UpdateOrder_inv s id req clock ih

/-! ## Identifiers written in decimal are read back by `Atoi` -/

theorem digitChar_isDigitByte (d : Nat) (h : d < 10) :
    isDigitByte (Nat.digitChar d) = true ∧ (Nat.digitChar d).toNat - 48 = d := by
  interval_cases d <;> exact ⟨by decide, by decide⟩

theorem toDigitsCore_ne_nil (fuel n : Nat) (acc : List Char) (h : acc ≠ []) :
    Nat.toDigitsCore 10 fuel n acc ≠ [] := by
  induction fuel generalizing n acc with
  | zero => simpa [Nat.toDigitsCore] using h
  | succ fuel ih =>
    rw [Nat.toDigitsCore]
    split
    · exact List.cons_ne_nil _ _
    · exact ih _ _ (List.cons_ne_nil _ _)

theorem toDigitsCore_all_digits (fuel n : Nat) (acc : List Char)
    (h : acc.all isDigitByte = true) :
    (Nat.toDigitsCore 10 fuel n acc).all isDigitByte = true := by
  induction fuel generalizing n acc with
  | zero => simpa [Nat.toDigitsCore] using h
  | succ fuel ih =>
    have hd : isDigitByte (Nat.digitChar (n % 10)) = true :=
      (digitChar_isDigitByte _ (Nat.mod_lt _ (by decide))).1
    have hacc : (Nat.digitChar (n % 10) :: acc).all isDigitByte = true := by
      rw [List.all_cons, hd, h]; rfl
    rw [Nat.toDigitsCore]
    split
    · exact hacc
    · exact ih _ _ hacc

theorem toDigitsCore_value (fuel : Nat) : ∀ (n : Nat) (acc : List Char), n < fuel →
    List.foldl (fun m ch => m * 10 + (ch.toNat - 48)) 0 (Nat.toDigitsCore 10 fuel n acc)
      = List.foldl (fun m ch => m * 10 + (ch.toNat - 48)) n acc := by
  induction fuel with
  | zero => intro n acc h; omega
  | succ fuel ih =>
    intro n acc h
    have hd : (Nat.digitChar (n % 10)).toNat - 48 = n % 10 :=
      (digitChar_isDigitByte _ (Nat.mod_lt _ (by decide))).2
    rw [Nat.toDigitsCore]
    split
    · next h0 =>
      rw [List.foldl_cons, hd]
      have : 0 * 10 + n % 10 = n := by omega
      rw [this]
    · next h0 =>
      have hlt : n / 10 < fuel := by omega
      rw [ih _ _ hlt, List.foldl_cons, hd]
      have : n / 10 * 10 + n % 10 = n := by omega
      rw [this]

theorem Atoi_of_digits (ds : List Char) (hne : ds ≠ [])
    (hall : ds.all isDigitByte = true) (hlt : digitsValue ds < 2 ^ 63) :
    Atoi (String.mk ds) = some (digitsValue ds : Int) := by
  cases ds with
  | nil => exact absurd rfl hne
  | cons c cs =>
    have hc : isDigitByte c = true := by
      rw [List.all_cons, Bool.and_eq_true] at hall; exact hall.1
    have h1 : (c == '-') = false := by
      rw [beq_eq_false_iff_ne]; intro h; subst h; revert hc; decide
    have h2 : (c == '+') = false := by
      rw [beq_eq_false_iff_ne]; intro h; subst h; revert hc; decide
    simp only [Atoi, h1, h2, Bool.or_self, Bool.false_eq_true, if_false, hall,
      Bool.not_true, List.isEmpty_cons, if_pos hlt]

/-- The decimal rendering of a key in `0 .. 2^63 - 1` is accepted by `Atoi`,
which gives the key back. -/
theorem Atoi_toString (i : Int) (h0 : 0 ≤ i) (h1 : i < 2 ^ 63) :
    Atoi (toString i) = some i := by
  obtain ⟨n, rfl⟩ := Int.eq_ofNat_of_zero_le h0
  have hn : n < 2 ^ 63 := by exact_mod_cast h1
  have hs : toString (n : Int) = String.mk (Nat.toDigitsCore 10 (n + 1) n []) := rfl
  have hv : digitsValue (Nat.toDigitsCore 10 (n + 1) n []) = n := by
    unfold digitsValue
    rw [toDigitsCore_value (n + 1) n [] (Nat.lt_succ_self n)]
    rfl
  have hne : Nat.toDigitsCore 10 (n + 1) n [] ≠ [] := by
    rw [Nat.toDigitsCore]
    split
    · exact List.cons_ne_nil _ _
    · exact toDigitsCore_ne_nil _ _ _ (List.cons_ne_nil _ _)
  rw [hs, Atoi_of_digits _ hne (toDigitsCore_all_digits _ _ _ rfl) (by rw [hv]; exact hn), hv]

/-! ## Which strings pass `isEAN` -/

theorem utf8Size_of_isDigitByte (c : Char) (h : isDigitByte c = true) : c.utf8Size = 1 := by
  unfold isDigitByte at h
  simp only [Bool.and_eq_true, decide_eq_true_eq] at h
  have h2 : c.val ≤ 127 := by
    rw [UInt32.le_def]
    show c.val.val.val ≤ 127
    have : c.toNat = c.val.val.val := rfl
    omega
  simp [Char.utf8Size, h2]

theorem utf8Len_of_digits (cs : List Char) (h : cs.all isDigitByte = true) :
    String.utf8Len cs = cs.length := by
  induction cs with
  | nil => rfl
  | cons c cs ih =>
    rw [List.all_cons, Bool.and_eq_true] at h
    rw [String.utf8Len_cons, ih h.2, utf8Size_of_isDigitByte c h.1, List.length_cons]

theorem foldl_digits_lt (ds : List Char) (h : ds.all isDigitByte = true) : ∀ a : Nat,
    List.foldl (fun n ch => n * 10 + (ch.toNat - 48)) a ds < (a + 1) * 10 ^ ds.length := by
  induction ds with
  | nil => intro a; simp
  | cons c cs ih =>
    intro a
    rw [List.all_cons, Bool.and_eq_true] at h
    have hc : c.toNat - 48 ≤ 9 := by
      have := h.1
      unfold isDigitByte at this
      simp only [Bool.and_eq_true, decide_eq_true_eq] at this
      omega
    rw [List.foldl_cons, List.length_cons, pow_succ]
    calc List.foldl (fun n ch => n * 10 + (ch.toNat - 48)) (a * 10 + (c.toNat - 48)) cs
        < (a * 10 + (c.toNat - 48) + 1) * 10 ^ cs.length := ih h.2 _
      _ ≤ ((a + 1) * 10) * 10 ^ cs.length := Nat.mul_le_mul_right _ (by omega)
      _ = (a + 1) * (10 ^ cs.length * 10) := by ring
theorem Atoi_none_of_not_digits (c : Char) (cs : List Char)
    (h : (if c == '-' || c == '+' then cs else c :: cs).all isDigitByte = false) :
    Atoi (String.mk (c :: cs)) = none := by
  simp only [Atoi, h, Bool.not_false, if_true, ite_self]

theorem Atoi_signed (c : Char) (cs : List Char) (hc : c = '+' ∨ c = '-') (hne : cs ≠ [])
    (hall : cs.all isDigitByte = true) (hlt : digitsValue cs < 2 ^ 63) :
    ∃ n, Atoi (String.mk (c :: cs)) = some n := by
  have hs : (c == '-' || c == '+') = true := by
    rcases hc with h | h <;> subst h <;> decide
  have he : cs.isEmpty = false := by
    cases cs with
    | nil => exact absurd rfl hne
    | cons _ _ => rfl
  simp only [Atoi, hs, if_true, he, Bool.false_eq_true, if_false, hall, Bool.not_true,
    if_pos hlt, if_pos (le_of_lt hlt)]
  split <;> exact ⟨_, rfl⟩

/-- Exactly which strings pass `isEAN`: thirteen decimal digits, or one sign
followed by twelve decimal digits. -/
theorem isEAN_iff (s : String) :
    isEAN s = true ↔
      (s.data.length = 13 ∧ s.data.all isDigitByte = true) ∨
      (∃ c cs, s.data = c :: cs ∧ (c = '+' ∨ c = '-') ∧ cs.length = 12 ∧
        cs.all isDigitByte = true) := by
  have hsplit : isEAN s = true ↔ isNumber s = true ∧ s.utf8ByteSize = 13 := by
    unfold isEAN; simp
  rw [hsplit]
  cases s with
  | mk l =>
    cases l with
    | nil =>
      constructor
      · rintro ⟨h, _⟩; exact absurd h (by decide)
      · rintro (⟨h, _⟩ | ⟨c, cs, h, _⟩)
        · exact absurd h (by decide)
        · exact absurd h (by simp)
    | cons c cs =>
      show isNumber (String.mk (c :: cs)) = true ∧ String.utf8Len (c :: cs) = 13 ↔
        ((c :: cs).length = 13 ∧ (c :: cs).all isDigitByte = true) ∨
        (∃ c1 cs1, c :: cs = c1 :: cs1 ∧ (c1 = '+' ∨ c1 = '-') ∧ cs1.length = 12 ∧
          cs1.all isDigitByte = true)
      by_cases hc : c = '+' ∨ c = '-'
      · have hs : (c == '-' || c == '+') = true := by
          rcases hc with h | h <;> subst h <;> decide
        have hsize : c.utf8Size = 1 := by
          rcases hc with h | h <;> subst h <;> decide
        have hnd : isDigitByte c = false := by
          rcases hc with h | h <;> subst h <;> decide
        constructor
        · rintro ⟨hnum, hlen⟩
          right
          have hall : cs.all isDigitByte = true := by
            by_contra hcon
            have hf : (if c == '-' || c == '+' then cs else c :: cs).all isDigitByte = false := by
              rw [hs]; simpa using hcon
            rw [isNumber, Atoi_none_of_not_digits c cs hf] at hnum
            exact absurd hnum (by decide)
          rw [String.utf8Len_cons, utf8Len_of_digits cs hall, hsize] at hlen
          exact ⟨c, cs, rfl, hc, by omega, hall⟩
        · rintro (⟨_, h⟩ | ⟨c1, cs1, heq, _, hlen, hall⟩)
          · rw [List.all_cons, hnd] at h; simp at h
          · obtain ⟨rfl, rfl⟩ := List.cons.inj heq
            have hv : digitsValue cs < 2 ^ 63 := by
              have := foldl_digits_lt cs hall 0
              rw [hlen] at this
              unfold digitsValue
              omega
            refine ⟨?_, ?_⟩
            · obtain ⟨n, hn⟩ := Atoi_signed c cs hc (by intro h; rw [h] at hlen; simp at hlen) hall hv
              rw [isNumber, hn]
            · rw [String.utf8Len_cons, utf8Len_of_digits cs hall, hsize, hlen]
      · have hs : (c == '-' || c == '+') = false := by
          simp only [not_or] at hc
          simp [hc.1, hc.2]
        constructor
        · rintro ⟨hnum, hlen⟩
          left
          have hall : (c :: cs).all isDigitByte = true := by
            by_contra hcon
            have hf : (if c == '-' || c == '+' then cs else c :: cs).all isDigitByte = false := by
              rw [hs]; simpa using hcon
            rw [isNumber, Atoi_none_of_not_digits c cs hf] at hnum
            exact absurd hnum (by decide)
          rw [utf8Len_of_digits _ hall] at hlen
          exact ⟨hlen, hall⟩
        · rintro (⟨hlen, hall⟩ | ⟨c1, cs1, heq, hc1, _, _⟩)
          · have hv : digitsValue (c :: cs) < 2 ^ 63 := by
              have := foldl_digits_lt (c :: cs) hall 0
              rw [hlen] at this
              unfold digitsValue
              omega
            refine ⟨?_, ?_⟩
            · rw [isNumber, Atoi_of_digits _ (List.cons_ne_nil _ _) hall hv]
            · rw [utf8Len_of_digits _ hall, hlen]
          · obtain ⟨rfl, rfl⟩ := List.cons.inj heq
            exact absurd hc1 hc

/-! ## Create then Fetch -/

theorem createdRows_orderId (orderId : Int) (name : String) (clock : Nat → Int)
    (ps : List Product) : ∀ (key : Int) (t : Nat),
    ∀ r ∈ createdRows orderId name clock ps key t, r.OrderId = orderId ∧ key ≤ r.Id := by
  induction ps with
  | nil => intro key t r hr; simp [createdRows] at hr
  | cons p ps ih =>
    intro key t r hr
    rw [createdRows, List.mem_cons] at hr
    rcases hr with hr | hr
    · subst hr; exact ⟨rfl, le_refl _⟩
    · obtain ⟨h1, h2⟩ := ih _ _ r hr
      exact ⟨h1, by omega⟩

theorem createdRows_sorted (orderId : Int) (name : String) (clock : Nat → Int)
    (ps : List Product) : ∀ (key : Int) (t : Nat),
    List.Sorted (fun a b : OrderProduct => a.Id ≤ b.Id)
      (createdRows orderId name clock ps key t) := by
  induction ps with
  | nil => intro key t; exact List.sorted_nil
  | cons p ps ih =>
    intro key t
    rw [createdRows, List.sorted_cons]
    refine ⟨?_, ih _ _⟩
    intro b hb
    have := (createdRows_orderId orderId name clock ps _ _ b hb).2
    show key ≤ b.Id
    omega

theorem createdRows_response (orderId : Int) (customerName : String) (clock : Nat → Int)
    (ps : List Product) : ∀ (key : Int) (t : Nat),
    (createdRows orderId customerName clock ps key t).map toOrderResponse =
      ps.map (fun p =>
        ({ OrderId := orderId, ProductId := p.Id, ProductEan := p.EanBarcode,
           CustomerName := customerName } : OrderResponse)) := by
  induction ps with
  | nil => intro key t; rfl
  | cons p ps ih =>
    intro key t
    rw [createdRows, List.map_cons, List.map_cons, ih]
    rfl

/-- What a Create request that passes every gate returns and leaves behind. -/
theorem CreateOrder_of_valid (s : Store) (req : NewOrderReq) (clock : Nat → Int)
    (hname : req.CustomerName ≠ "") (hprods : req.Products ≠ [])
    (hean : ∀ p ∈ req.Products, isEAN p.EanBarcode = true) :
    CreateOrder s req clock =
      ({ orders := s.orders ++
            [{ Id := s.nextOrderId, CustomerName := req.CustomerName,
               Status := "RECEIVED", CreatedAt := clock 0, UpdatedAt := clock 1 }],
         orderProducts := s.orderProducts ++
            createdRows s.nextOrderId req.CustomerName clock req.Products
              s.nextOrderProductId 2,
         nextOrderId := s.nextOrderId + 1,
         nextOrderProductId := s.nextOrderProductId + req.Products.length },
       { status := 201, message := some "Order Created Successfully!",
         resourceId := some s.nextOrderId }) := by
  have hne : isEmpty req.CustomerName = false := (isEmpty_eq_false_iff _).2 hname
  have hnz : (req.Products.length == 0) = false := by
    have : req.Products.length ≠ 0 := fun h => hprods (List.length_eq_zero.1 h)
    simpa using this
  unfold CreateOrder
  rw [hne, hnz]
  simp only [Bool.false_eq_true, if_false]
  have happ : req.Products = req.Products ++ [] := (List.append_nil _).symm
  conv_lhs => rw [happ]
  rw [createLoop_append_valid _ _ _ _ _ _ _ hean, createLoop]
  simp [Store.insertOrder, received]

/-- C1. On a store reachable through the handlers (its next order key still
an `int64`), a Create request with a non-empty customer name and a non-empty
product list whose codes all pass `isEAN` is answered 201 with the new key as
`resourceId`, and fetching the decimal string of that key then returns one
record per input product, in input order, the record at each position
carrying the new key, that product's identifier and code, and the customer
name. -/
theorem CreateOrder_then_FetchOrder (s : Store) (hs : Reachable s)
    (hfit : s.nextOrderId < 2 ^ 63) (req : NewOrderReq) (clock : Nat → Int)
    (hname : req.CustomerName ≠ "") (hprods : req.Products ≠ [])
    (hean : ∀ p ∈ req.Products, isEAN p.EanBarcode = true) :
    (CreateOrder s req clock).2.status = 201 ∧
    (CreateOrder s req clock).2.resourceId = some s.nextOrderId ∧
    (FetchOrder (CreateOrder s req clock).1 (toString s.nextOrderId)).2 =
      { status := 200, message := some "Order Details Fetched Successfully!",
        order := some (req.Products.map (fun p =>
          ({ OrderId := s.nextOrderId, ProductId := p.Id, ProductEan := p.EanBarcode,
             CustomerName := req.CustomerName } : OrderResponse))) } := by
  have hinv := hs.inv
  rw [CreateOrder_of_valid s req clock hname hprods hean]
  refine ⟨rfl, rfl, ?_⟩
  have hid : Atoi (toString s.nextOrderId) = some s.nextOrderId :=
    Atoi_toString _ (by have := hinv.nextPos; omega) hfit
  have hold : s.orderProducts.filter (fun p => p.OrderId == s.nextOrderId) = [] := by
    rw [List.filter_eq_nil_iff]
    intro p hp
    have := hinv.itemOrder p hp
    simp only [beq_iff_eq]
    omega
  have hnew : (createdRows s.nextOrderId req.CustomerName clock req.Products
      s.nextOrderProductId 2).filter (fun p => p.OrderId == s.nextOrderId)
      = createdRows s.nextOrderId req.CustomerName clock req.Products
          s.nextOrderProductId 2 := by
    rw [List.filter_eq_self]
    intro p hp
    simpa using (createdRows_orderId _ _ _ _ _ _ p hp).1
  have hlen : (createdRows s.nextOrderId req.CustomerName clock req.Products
      s.nextOrderProductId 2).length ≠ 0 := by
    rw [createdRows_length]
    exact fun h => hprods (List.length_eq_zero.1 h)
  simp only [FetchOrder, isNumber_of_Atoi hid, queryId_of_Atoi hid, if_true,
    Store.selectOrderProducts, List.filter_append, hold, hnew,
    List.nil_append, (createdRows_sorted _ _ _ _ _ _).insertionSort_eq,
    createdRows_response, beq_iff_eq, hlen, if_false]

theorem aliceStore_reachable : Reachable aliceStore :=
  Reachable.create _ _ _ Reachable.empty

theorem CreateOrder_then_FetchOrder_witness :
    (CreateOrder aliceStore ⟨"Bob", [otherProduct, sampleProduct]⟩ sampleClock).2.status = 201 ∧
    (CreateOrder aliceStore ⟨"Bob", [otherProduct, sampleProduct]⟩
        sampleClock).2.resourceId = some 2 ∧
    (FetchOrder (CreateOrder aliceStore ⟨"Bob", [otherProduct, sampleProduct]⟩
        sampleClock).1 (toString (2 : Int))).2 =
      { status := 200, message := some "Order Details Fetched Successfully!",
        order := some [⟨2, 2, "9999999999999", "Bob"⟩, ⟨2, 1, "1234567890123", "Bob"⟩] } :=
  CreateOrder_then_FetchOrder aliceStore aliceStore_reachable (by decide)
    ⟨"Bob", [otherProduct, sampleProduct]⟩ sampleClock (by decide) (by decide) (by decide)

/-! ## Fetch: error classification -/

/-- C9. `FetchOrder` answers 400 when `isNumber` rejects the identifier and 404
when the identifier is numeric and no line item carries that `OrderId`; either
way the store is returned as it was and the answer holds no records. -/
theorem FetchOrder_error_classification (s : Store) (id : String)
    (h : isNumber id = false ∨
      ∃ n, Atoi id = some n ∧ ∀ p ∈ s.orderProducts, p.OrderId ≠ n) :
    (FetchOrder s id).2.status = (if isNumber id = true then 404 else 400) ∧
    (FetchOrder s id).2.order = none ∧ (FetchOrder s id).1 = s := by
  rcases h with h | ⟨n, hn, hnone⟩
  · simp [FetchOrder, h]
  · have hnum : isNumber id = true := (isNumber_eq_true_iff id).2 ⟨n, hn⟩
    have hf : s.orderProducts.filter (fun p => p.OrderId == n) = [] := by
      rw [List.filter_eq_nil_iff]
      intro p hp
      simpa using hnone p hp
    simp [FetchOrder, hnum, queryId_of_Atoi hn, Store.selectOrderProducts, hf]

theorem FetchOrder_error_classification_witness :
    ((FetchOrder aliceStore "abc").2.status = (if isNumber "abc" = true then 404 else 400) ∧
      (FetchOrder aliceStore "abc").2.order = none ∧
      (FetchOrder aliceStore "abc").1 = aliceStore) ∧
    ((FetchOrder aliceStore "7").2.status = (if isNumber "7" = true then 404 else 400) ∧
      (FetchOrder aliceStore "7").2.order = none ∧
      (FetchOrder aliceStore "7").1 = aliceStore) :=
  ⟨FetchOrder_error_classification aliceStore "abc" (Or.inl (by decide)),
   FetchOrder_error_classification aliceStore "7"
     (Or.inr ⟨7, by decide, by decide⟩)⟩

/-! ## Update: header lookup -/

theorem filter_key_eq_singleton {α : Type} (key : α → Int) (l : List α)
    (hn : (l.map key).Nodup) (x : α) (hx : x ∈ l) :
    l.filter (fun r => key r == key x) = [x] := by
  induction l with
  | nil => simp at hx
  | cons a l ih =>
    rw [List.map_cons, List.nodup_cons] at hn
    rcases List.mem_cons.1 hx with h | h
    · subst h
      have hrest : l.filter (fun r => key r == key x) = [] := by
        rw [List.filter_eq_nil_iff]
        intro r hr hk
        exact hn.1 (by
          have : key r = key x := by simpa using hk
          rw [← this]; exact List.mem_map_of_mem _ hr)
      simp only [List.filter_cons, hrest, beq_self_eq_true, if_true]
    · have hne : (key a == key x) = false := by
        rw [beq_eq_false_iff_ne]
        intro hk
        exact hn.1 (hk ▸ List.mem_map_of_mem _ h)
      simp only [List.filter_cons, hne, Bool.false_eq_true, if_false]
      exact ih hn.2 h

theorem selectOneOrder_of_mem {s : Store} (hn : (s.orders.map (fun o => o.Id)).Nodup)
    {o : Order} (ho : o ∈ s.orders) : s.selectOneOrder o.Id = some o := by
  unfold Store.selectOneOrder
  rw [filter_key_eq_singleton (fun o : Order => o.Id) s.orders hn o ho]

theorem selectOneOrder_some {s : Store} {n : Int} {o : Order}
    (h : s.selectOneOrder n = some o) : s.orders.filter (fun r => r.Id == n) = [o] := by
  unfold Store.selectOneOrder at h
  split at h
  · next x hx => rw [hx]; simpa using h
  · exact absurd h (by simp)

/-- The header write of `UpdateOrder`, column by column: the row with key `n`
takes the request's customer name and the first clock reading. -/
theorem updateOrder_headerAfter {s : Store} {n : Int} {o : Order}
    (h : s.selectOneOrder n = some o) (req : NewOrderReq) (clock : Nat → Int) :
    s.updateOrder (headerAfter o req clock) =
      { s with orders :=
          s.orders.map (fun r => if r.Id = n then headerAfter r req clock else r) } := by
  have hf := selectOneOrder_some h
  have hon : o.Id = n := by
    have : o ∈ s.orders.filter (fun r => r.Id == n) := by rw [hf]; exact List.mem_singleton_self o
    simpa using (List.mem_filter.1 this).2
  unfold Store.updateOrder
  congr 1
  apply List.map_congr_left
  intro r hr
  have hid : (headerAfter o req clock).Id = n := hon
  rw [hid]
  by_cases hrn : r.Id = n
  · have : r ∈ s.orders.filter (fun r => r.Id == n) :=
      List.mem_filter.2 ⟨hr, by simpa using hrn⟩
    rw [hf, List.mem_singleton] at this
    rw [if_pos hrn, if_pos hrn, this]
  · rw [if_neg hrn, if_neg hrn]

/-! ## Update: what a validation failure leaves behind -/

/-- C7 (as stated, refuted). An Update of Alice's one-item order that carries
no product is answered 400, yet the header now reads `Bob` with a new update
time: the store is not the store before the call. -/
theorem UpdateOrder_mismatch_rewrites_header :
    (UpdateOrder aliceStore "1" ⟨"Bob", []⟩ sampleClock).2.status = 400 ∧
    aliceStore.orders.map (fun o => (o.CustomerName, o.UpdatedAt)) = [("Alice", 1001)] ∧
    (UpdateOrder aliceStore "1" ⟨"Bob", []⟩ sampleClock).1.orders.map
      (fun o => (o.CustomerName, o.UpdatedAt)) = [("Bob", 1000)] ∧
    (UpdateOrder aliceStore "1" ⟨"Bob", []⟩ sampleClock).1 ≠ aliceStore := by
  decide

/-- C7 (amended). When `UpdateOrder` answers 400, then either the identifier
is not numeric and the store is the store before the call, or the product
count differs from the stored count and the store differs from the one before
in the header row of that order only, which carries the request's customer
name and a new update time; no line item and no key counter is touched. -/
theorem UpdateOrder_validation_failure_effect (s : Store) (id : String)
    (req : NewOrderReq) (clock : Nat → Int)
    (h : (UpdateOrder s id req clock).2.status = 400) :
    (UpdateOrder s id req clock).1 =
      match Atoi id with
      | none => s
      | some n =>
        { s with orders :=
            s.orders.map (fun r => if r.Id = n then headerAfter r req clock else r) } := by
  cases hid : Atoi id with
  | none => rw [UpdateOrder_of_not_number hid]
  | some n =>
    cases ho : s.selectOneOrder n with
    | none => rw [UpdateOrder_of_no_header hid ho] at h; simp at h
    | some o =>
      by_cases hz : o = zeroOrder ∨ o.CustomerName.utf8ByteSize = 0
      · rw [UpdateOrder_of_blank_header hid ho hz] at h; simp at h
      · rw [UpdateOrder_of_header hid ho hz] at h ⊢
        split at h
        · simp at h
        · split at h
          · next h1 h2 =>
            rw [if_neg h1, if_pos h2]
            exact updateOrder_headerAfter ho req clock
          · simp at h

theorem UpdateOrder_validation_failure_effect_witness :
    (UpdateOrder aliceStore "x1" ⟨"Bob", []⟩ sampleClock).1 = aliceStore ∧
    (UpdateOrder aliceStore "1" ⟨"Bob", []⟩ sampleClock).1.orders.map
      (fun o => (o.Id, o.CustomerName, o.UpdatedAt)) = [(1, "Bob", 1000)] ∧
    (UpdateOrder aliceStore "1" ⟨"Bob", []⟩ sampleClock).1.orderProducts
      = aliceStore.orderProducts :=
  ⟨UpdateOrder_validation_failure_effect aliceStore "x1" ⟨"Bob", []⟩ sampleClock (by decide),
   by rw [UpdateOrder_validation_failure_effect aliceStore "1" ⟨"Bob", []⟩ sampleClock
        (by decide)]; decide,
   by rw [UpdateOrder_validation_failure_effect aliceStore "1" ⟨"Bob", []⟩ sampleClock
        (by decide)]; decide⟩

/-! ## Update: the header invariant -/

/-- C6 (evaluation at the failing input). Alice's order is created, then
updated with an empty customer name: the Update is answered 200 and the
reachable store now holds a header whose customer name is empty, which a later
Update of the same order reports as not found. -/
theorem UpdateOrder_writes_empty_customer_name :
    Reachable blankedStore ∧
    (UpdateOrder aliceStore "1" ⟨"", [sampleProduct]⟩ sampleClock).2.status = 200 ∧
    blankedStore.orders.map (fun o => (o.Id, o.CustomerName)) = [(1, "")] ∧
    (UpdateOrder blankedStore "1" ⟨"Alice", [sampleProduct]⟩ sampleClock).2.status = 404 :=
  ⟨Reachable.update _ _ _ _ aliceStore_reachable, by decide, by decide, by decide⟩

/-! ## Update: product count -/

theorem headerOnlyStore_reachable : Reachable headerOnlyStore :=
  Reachable.create _ _ _ Reachable.empty

/-- C5 (as stated, refuted). A header without line items is reachable (a
Create whose first code is rejected leaves one): an Update of it with one
product, a count that differs from the stored count 0, is answered 404 and not
400. So is an Update with two products of the one-item order whose header
carries an empty customer name. -/
theorem UpdateOrder_mismatch_answered_404 :
    (Reachable headerOnlyStore ∧ (∃ o ∈ headerOnlyStore.orders, o.Id = 1) ∧
      Atoi "1" = some 1 ∧ [sampleProduct].length ≠ headerOnlyStore.lineItemCount 1 ∧
      (UpdateOrder headerOnlyStore "1" ⟨"Carol", [sampleProduct]⟩ sampleClock).2.status
        = 404) ∧
    (Reachable blankedStore ∧ (∃ o ∈ blankedStore.orders, o.Id = 1) ∧
      [sampleProduct, otherProduct].length ≠ blankedStore.lineItemCount 1 ∧
      (UpdateOrder blankedStore "1" ⟨"Alice", [sampleProduct, otherProduct]⟩
        sampleClock).2.status = 404) :=
  ⟨⟨headerOnlyStore_reachable, by decide, by decide, by decide, by decide⟩,
   ⟨Reachable.update _ _ _ _ aliceStore_reachable, by decide, by decide, by decide⟩⟩

theorem length_selectOrderProducts (s : Store) (n : Int) :
    (s.selectOrderProducts n).length = s.lineItemCount n := by
  unfold Store.selectOrderProducts Store.lineItemCount
  rw [List.length_insertionSort]

/-- C5 (amended). On a reachable store, for the numeric identifier of a header
whose customer name is not empty and whose order has at least one line item
stored, an Update whose product count differs from the stored count is
answered 400. -/
theorem UpdateOrder_rejects_count_mismatch (s : Store) (hs : Reachable s) (id : String)
    (n : Int) (hid : Atoi id = some n) (o : Order) (ho : o ∈ s.orders)
    (hon : o.Id = n) (hname : o.CustomerName ≠ "") (req : NewOrderReq)
    (clock : Nat → Int) (hitems : s.lineItemCount n ≠ 0)
    (hcount : req.Products.length ≠ s.lineItemCount n) :
    (UpdateOrder s id req clock).2.status = 400 := by
  have hsel : s.selectOneOrder n = some o := hon ▸ selectOneOrder_of_mem hs.inv.orderNodup ho
  have hz : ¬ (o = zeroOrder ∨ o.CustomerName.utf8ByteSize = 0) := by
    rintro (h | h)
    · exact hname (by rw [h]; rfl)
    · exact hname ((utf8ByteSize_eq_zero_iff _).1 h)
  rw [UpdateOrder_of_header hid hsel hz, length_selectOrderProducts,
    if_neg hitems, if_pos (Ne.symm hcount)]

theorem UpdateOrder_rejects_count_mismatch_witness :
    (UpdateOrder aliceStore "1" ⟨"Alice", [sampleProduct, otherProduct]⟩
      sampleClock).2.status = 400 :=
  UpdateOrder_rejects_count_mismatch aliceStore aliceStore_reachable "1" 1 (by decide)
    ⟨1, "Alice", "RECEIVED", 1000, 1001⟩ (by decide) (by decide) (by decide)
    ⟨"Alice", [sampleProduct, otherProduct]⟩ sampleClock (by decide) (by decide)

/-! ## Update: the line-item loop -/

theorem updatedRows_nil_left (customerName : String) (clock : Nat → Int)
    (ps : List Product) (k : Nat) : updatedRows customerName clock [] ps k = [] := by
  simp [updatedRows]

theorem updatedRows_nil_right (customerName : String) (clock : Nat → Int)
    (items : List OrderProduct) (k : Nat) :
    updatedRows customerName clock items [] k = [] := by
  cases items <;> simp [updatedRows]

/-- The loop of `UpdateOrder` writes back, one after the other, the rows
`updatedRows` lists. -/
theorem updateLoop_eq_foldl (req : NewOrderReq) (clock : Nat → Int)
    (items : List OrderProduct) : ∀ (index : Nat) (s : Store),
    index + items.length ≤ req.Products.length →
    updateLoop req clock items index s =
      (updatedRows req.CustomerName clock items (req.Products.drop index) index).foldl
        Store.updateOrderProduct s := by
  induction items with
  | nil => intro index s _; rw [updatedRows_nil_left]; rfl
  | cons item items ih =>
    intro index s h
    have hlt : index < req.Products.length := by
      simp only [List.length_cons] at h; omega
    rw [updateLoop, List.getElem?_eq_getElem hlt, List.drop_eq_getElem_cons hlt,
      updatedRows, List.foldl_cons]
    exact ih (index + 1) _ (by simp only [List.length_cons] at h; omega)

theorem replaceRows_id (us : List OrderProduct) (r : OrderProduct) :
    (replaceRows us r).Id = r.Id := by
  unfold replaceRows
  split
  · next u hu => simpa using List.find?_some hu
  · rfl

theorem replaceRows_of_not_mem (us : List OrderProduct) (r : OrderProduct)
    (h : r.Id ∉ us.map (fun u => u.Id)) : replaceRows us r = r := by
  unfold replaceRows
  have : us.find? (fun u => u.Id == r.Id) = none := by
    rw [List.find?_eq_none]
    intro u hu hk
    exact h (by
      have : u.Id = r.Id := by simpa using hk
      rw [← this]; exact List.mem_map_of_mem _ hu)
  rw [this]

theorem find?_key_of_mem (us : List OrderProduct)
    (hn : (us.map (fun u => u.Id)).Nodup) (u : OrderProduct) (hu : u ∈ us) :
    us.find? (fun x => x.Id == u.Id) = some u := by
  induction us with
  | nil => simp at hu
  | cons a us ih =>
    rw [List.map_cons, List.nodup_cons] at hn
    rcases List.mem_cons.1 hu with h | h
    · subst h
      simp only [List.find?_cons, beq_self_eq_true]
    · have hne : (a.Id == u.Id) = false := by
        rw [beq_eq_false_iff_ne]
        intro hk
        exact hn.1 (hk ▸ List.mem_map_of_mem _ h)
      simp only [List.find?_cons, hne]
      exact ih hn.2 h

theorem replaceRows_of_mem (us : List OrderProduct)
    (hn : (us.map (fun u => u.Id)).Nodup) (u : OrderProduct) (hu : u ∈ us)
    (r : OrderProduct) (hr : r.Id = u.Id) : replaceRows us r = u := by
  unfold replaceRows
  rw [hr, find?_key_of_mem us hn u hu]

/-- Writing back rows with pairwise distinct keys, one after the other,
replaces each row of the table by the written row with its key. -/
theorem foldl_updateOrderProduct (us : List OrderProduct) :
    (us.map (fun u => u.Id)).Nodup → ∀ s : Store,
    us.foldl Store.updateOrderProduct s =
      { s with orderProducts := s.orderProducts.map (replaceRows us) } := by
  induction us with
  | nil =>
    intro _ s
    have : s.orderProducts.map (replaceRows []) = s.orderProducts := by
      conv_rhs => rw [← List.map_id s.orderProducts]
      apply List.map_congr_left
      intro r _
      rfl
    rw [List.foldl_nil, this]
  | cons u us ih =>
    intro hn s
    rw [List.map_cons, List.nodup_cons] at hn
    rw [List.foldl_cons, ih hn.2]
    unfold Store.updateOrderProduct
    simp only [List.map_map]
    congr 1
    apply List.map_congr_left
    intro r _
    show replaceRows us (if r.Id = u.Id then u else r) = replaceRows (u :: us) r
    by_cases h : r.Id = u.Id
    · rw [if_pos h, replaceRows_of_not_mem us u hn.1]
      unfold replaceRows
      rw [List.find?_cons_of_pos _ (by simpa using h.symm)]
    · rw [if_neg h]
      unfold replaceRows
      rw [List.find?_cons_of_neg _ (by simpa using fun h1 => h h1.symm)]

/-- Each written row keeps the key, the order key and the creation time of the
stored row it comes from. -/
theorem updatedRows_mem (customerName : String) (clock : Nat → Int)
    (items : List OrderProduct) : ∀ (ps : List Product) (k : Nat),
    ∀ u ∈ updatedRows customerName clock items ps k,
      ∃ item ∈ items, u.Id = item.Id ∧ u.OrderId = item.OrderId ∧
        u.CreatedAt = item.CreatedAt := by
  induction items with
  | nil => intro ps k u hu; rw [updatedRows_nil_left] at hu; simp at hu
  | cons item items ih =>
    intro ps k u hu
    cases ps with
    | nil => rw [updatedRows_nil_right] at hu; simp at hu
    | cons p ps =>
      rw [updatedRows, List.mem_cons] at hu
      rcases hu with hu | hu
      · subst hu; exact ⟨item, List.mem_cons_self _ _, rfl, rfl, rfl⟩
      · obtain ⟨it, hit, h⟩ := ih ps (k + 1) u hu
        exact ⟨it, List.mem_cons_of_mem _ hit, h⟩

theorem updatedRows_keys (customerName : String) (clock : Nat → Int)
    (items : List OrderProduct) : ∀ (ps : List Product) (k : Nat),
    items.length ≤ ps.length →
    (updatedRows customerName clock items ps k).map (fun u => u.Id)
      = items.map (fun u => u.Id) := by
  induction items with
  | nil => intro ps k _; rw [updatedRows_nil_left]
  | cons item items ih =>
    intro ps k h
    cases ps with
    | nil => simp at h
    | cons p ps =>
      rw [updatedRows, List.map_cons, List.map_cons,
        ih ps (k + 1) (by simpa using h)]

theorem map_replaceRows_eq (us : List OrderProduct)
    (hn : (us.map (fun u => u.Id)).Nodup) (items : List OrderProduct)
    (hkeys : items.map (fun u => u.Id) = us.map (fun u => u.Id)) :
    items.map (replaceRows us) = us := by
  have hlen : items.length = us.length := by
    have := congrArg List.length hkeys
    simpa using this
  apply List.ext_getElem (by simpa using hlen)
  intro i h1 h2
  rw [List.getElem_map]
  apply replaceRows_of_mem us hn _ (List.getElem_mem h2)
  have h3 : i < (items.map (fun u => u.Id)).length := by simpa using h1
  have := List.getElem_of_eq hkeys h3
  simpa using this

theorem selectOrderProducts_keys_nodup (s : Store) (n : Int)
    (hn : (s.orderProducts.map (fun p => p.Id)).Nodup) :
    ((s.selectOrderProducts n).map (fun p => p.Id)).Nodup := by
  unfold Store.selectOrderProducts
  rw [((List.perm_insertionSort _ _).map _).nodup_iff]
  exact hn.sublist ((List.filter_sublist _).map _)

/-- After rows keyed like the line items of order `n`, and pointing to order
`n`, have been written back, the line items of order `n` in ascending key
order are exactly the written rows. -/
theorem selectOrderProducts_after_writes (s : Store) (n : Int)
    (hn : (s.orderProducts.map (fun p => p.Id)).Nodup) (us : List OrderProduct)
    (hkeys : (s.selectOrderProducts n).map (fun u => u.Id) = us.map (fun u => u.Id))
    (horder : ∀ u ∈ us, u.OrderId = n) :
    Store.selectOrderProducts
      { s with orderProducts := s.orderProducts.map (replaceRows us) } n = us := by
  have hun : (us.map (fun u => u.Id)).Nodup := hkeys ▸ selectOrderProducts_keys_nodup s n hn
  have hord : ∀ r ∈ s.orderProducts, (replaceRows us r).OrderId = r.OrderId := by
    intro r hr
    by_cases hmem : r.Id ∈ us.map (fun u => u.Id)
    · obtain ⟨u, hu, hur⟩ := List.mem_map.1 hmem
      rw [replaceRows_of_mem us hun u hu r hur.symm, horder u hu]
      have hmem2 : r.Id ∈ (s.selectOrderProducts n).map (fun u => u.Id) := hkeys ▸ hmem
      obtain ⟨item, hitem, hir⟩ := List.mem_map.1 hmem2
      obtain ⟨hi1, hi2⟩ := mem_selectOrderProducts.1 hitem
      have : item = r := List.inj_on_of_nodup_map hn hi1 hr hir
      rw [← this, hi2]
    · rw [replaceRows_of_not_mem us r hmem]
  have hfilter : (s.orderProducts.map (replaceRows us)).filter (fun p => p.OrderId == n)
      = (s.orderProducts.filter (fun p => p.OrderId == n)).map (replaceRows us) := by
    rw [List.filter_map]
    congr 1
    apply List.filter_congr
    intro r hr
    simp only [Function.comp_apply, hord r hr]
  have hsort : ((s.orderProducts.filter (fun p => p.OrderId == n)).map
        (replaceRows us)).insertionSort (fun a b => a.Id ≤ b.Id)
      = ((s.orderProducts.filter (fun p => p.OrderId == n)).insertionSort
          (fun a b => a.Id ≤ b.Id)).map (replaceRows us) := by
    symm
    apply List.map_insertionSort
    intro a _ b _
    rw [replaceRows_id, replaceRows_id]
  show ((s.orderProducts.map (replaceRows us)).filter
      (fun p => p.OrderId == n)).insertionSort (fun a b => a.Id ≤ b.Id) = us
  rw [hfilter, hsort]
  exact map_replaceRows_eq us hun _ hkeys

theorem updatedRows_response (customerName : String) (clock : Nat → Int) (n : Int)
    (items : List OrderProduct) : ∀ (ps : List Product) (k : Nat),
    items.length = ps.length → (∀ item ∈ items, item.OrderId = n) →
    (updatedRows customerName clock items ps k).map toOrderResponse =
      ps.map (fun p =>
        ({ OrderId := n, ProductId := p.Id, ProductEan := p.EanBarcode,
           CustomerName := customerName } : OrderResponse)) := by
  induction items with
  | nil =>
    intro ps k h _
    have : ps = [] := List.length_eq_zero.1 h.symm
    subst this
    rw [updatedRows_nil_left]; rfl
  | cons item items ih =>
    intro ps k h hall
    cases ps with
    | nil => simp at h
    | cons p ps =>
      rw [updatedRows, List.map_cons, List.map_cons,
        ih ps (k + 1) (by simpa using h) (fun x hx => hall x (List.mem_cons_of_mem _ hx))]
      have : item.OrderId = n := hall item (List.mem_cons_self _ _)
      simp only [toOrderResponse, this]

theorem updatedRows_length (customerName : String) (clock : Nat → Int)
    (items : List OrderProduct) (ps : List Product) (k : Nat)
    (h : items.length ≤ ps.length) :
    (updatedRows customerName clock items ps k).length = items.length := by
  have := congrArg List.length (updatedRows_keys customerName clock items ps k h)
  simpa using this

/-- What an Update leaves behind when the header is found with a customer
name and the product count matches the stored count. -/
theorem UpdateOrder_of_match {s : Store} {id : String} {req : NewOrderReq}
    {clock : Nat → Int} {n : Int} {o : Order}
    (hn : (s.orderProducts.map (fun p => p.Id)).Nodup) (hid : Atoi id = some n)
    (ho : s.selectOneOrder n = some o)
    (hz : ¬ (o = zeroOrder ∨ o.CustomerName.utf8ByteSize = 0))
    (hpos : (s.selectOrderProducts n).length ≠ 0)
    (hlen : (s.selectOrderProducts n).length = req.Products.length) :
    UpdateOrder s id req clock =
      ({ s with
         orders := s.orders.map (fun r => if r.Id = n then headerAfter r req clock else r),
         orderProducts := s.orderProducts.map
           (replaceRows (updatedRows req.CustomerName clock (s.selectOrderProducts n)
              req.Products 0)) },
       { status := 200, message := some "Order Updated Successfully!",
         resourceId := some o.Id }) := by
  rw [UpdateOrder_of_header hid ho hz, if_neg hpos, if_neg (by simpa using hlen),
    updateLoop_eq_foldl req clock _ 0 _ (by omega), List.drop_zero,
    foldl_updateOrderProduct _ (by
      rw [updatedRows_keys _ _ _ _ _ (le_of_eq hlen)]
      exact selectOrderProducts_keys_nodup s n hn),
    updateOrder_headerAfter ho]

theorem blank_header_iff (o : Order) :
    (o = zeroOrder ∨ o.CustomerName.utf8ByteSize = 0) ↔ o.CustomerName = "" := by
  constructor
  · rintro (h | h)
    · rw [h]; rfl
    · exact (utf8ByteSize_eq_zero_iff _).1 h
  · intro h; exact Or.inr ((utf8ByteSize_eq_zero_iff _).2 h)

/-- C2. In a store with primary keys, let the order with numeric identifier
`id` have a header with a non-empty customer name and as many line items,
at least one, as the request has products (whatever their codes are). Then
`UpdateOrder` answers 200; afterwards the line items of the order in ascending
key order are the rows stored before, each keeping its key, order key and
creation time, the row at each position holding the product identifier and
code of the request product at that position and the request's customer name;
and a following `FetchOrder` returns these records in that order. -/
theorem UpdateOrder_positional (s : Store) (hs : s.KeysUnique) (id : String) (n : Int)
    (hid : Atoi id = some n) (o : Order) (ho : o ∈ s.orders) (hon : o.Id = n)
    (hname : o.CustomerName ≠ "") (req : NewOrderReq) (clock : Nat → Int)
    (hpos : s.lineItemCount n ≠ 0) (hlen : req.Products.length = s.lineItemCount n) :
    (UpdateOrder s id req clock).2.status = 200 ∧
    (UpdateOrder s id req clock).1.selectOrderProducts n =
      updatedRows req.CustomerName clock (s.selectOrderProducts n) req.Products 0 ∧
    (updatedRows req.CustomerName clock (s.selectOrderProducts n) req.Products 0).length
      = req.Products.length ∧
    (FetchOrder (UpdateOrder s id req clock).1 id).2 =
      { status := 200, message := some "Order Details Fetched Successfully!",
        order := some (req.Products.map (fun p =>
          ({ OrderId := n, ProductId := p.Id, ProductEan := p.EanBarcode,
             CustomerName := req.CustomerName } : OrderResponse))) } := by
  have hsel : s.selectOneOrder n = some o := hon ▸ selectOneOrder_of_mem hs.1 ho
  have hz : ¬ (o = zeroOrder ∨ o.CustomerName.utf8ByteSize = 0) :=
    fun h => hname ((blank_header_iff o).1 h)
  have hl : (s.selectOrderProducts n).length = req.Products.length := by
    rw [length_selectOrderProducts, hlen]
  have hp : (s.selectOrderProducts n).length ≠ 0 := by
    rw [length_selectOrderProducts]; exact hpos
  have hrows : (updatedRows req.CustomerName clock (s.selectOrderProducts n)
      req.Products 0).length = req.Products.length := by
    rw [updatedRows_length _ _ _ _ _ (le_of_eq hl), hl]
  have hafter : Store.selectOrderProducts
      { s with
        orders := s.orders.map (fun r => if r.Id = n then headerAfter r req clock else r),
        orderProducts := s.orderProducts.map
          (replaceRows (updatedRows req.CustomerName clock (s.selectOrderProducts n)
            req.Products 0)) } n
      = updatedRows req.CustomerName clock (s.selectOrderProducts n) req.Products 0 := by
    refine selectOrderProducts_after_writes s n hs.2 _
      (updatedRows_keys _ _ _ _ _ (le_of_eq hl)).symm ?_
    intro u hu
    obtain ⟨item, hitem, _, h2, _⟩ := updatedRows_mem _ _ _ _ _ u hu
    rw [h2]; exact (mem_selectOrderProducts.1 hitem).2
  rw [UpdateOrder_of_match hs.2 hid hsel hz hp hl]
  refine ⟨rfl, hafter, hrows, ?_⟩
  have hne : (updatedRows req.CustomerName clock (s.selectOrderProducts n)
      req.Products 0).length ≠ 0 := by rw [hrows, ← hl]; exact hp
  simp only [FetchOrder, isNumber_of_Atoi hid, queryId_of_Atoi hid, if_true, hafter,
    beq_iff_eq, hne, if_false]
  rw [updatedRows_response req.CustomerName clock n _ _ 0 hl
    (fun item hitem => (mem_selectOrderProducts.1 hitem).2)]

theorem UpdateOrder_positional_witness :
    (UpdateOrder bobStore "2" ⟨"Robert", [sampleProduct, otherProduct]⟩
      sampleClock).2.status = 200 ∧
    (UpdateOrder bobStore "2" ⟨"Robert", [sampleProduct, otherProduct]⟩
      sampleClock).1.selectOrderProducts 2 =
      updatedRows "Robert" sampleClock (bobStore.selectOrderProducts 2)
        [sampleProduct, otherProduct] 0 ∧
    (updatedRows "Robert" sampleClock (bobStore.selectOrderProducts 2)
        [sampleProduct, otherProduct] 0).length = 2 ∧
    (FetchOrder (UpdateOrder bobStore "2" ⟨"Robert", [sampleProduct, otherProduct]⟩
      sampleClock).1 "2").2 =
      { status := 200, message := some "Order Details Fetched Successfully!",
        order := some [⟨2, 1, "1234567890123", "Robert"⟩,
                       ⟨2, 2, "9999999999999", "Robert"⟩] } :=
  UpdateOrder_positional bobStore ⟨by decide, by decide⟩ "2" 2 (by decide)
    ⟨2, "Bob", "RECEIVED", 1000, 1001⟩ (by decide) (by decide) (by decide)
    ⟨"Robert", [sampleProduct, otherProduct]⟩ sampleClock (by decide) (by decide)

/-! ## Update twice -/

theorem selectOneOrder_after_header {s s1 : Store} {n : Int} {o : Order}
    (ho : s.selectOneOrder n = some o) (req : NewOrderReq) (clock : Nat → Int)
    (h1 : s1.orders =
      s.orders.map (fun r => if r.Id = n then headerAfter r req clock else r)) :
    s1.selectOneOrder n = some (headerAfter o req clock) := by
  have hf := selectOneOrder_some ho
  have hon : o.Id = n := by
    have : o ∈ s.orders.filter (fun r => r.Id == n) := by
      rw [hf]; exact List.mem_singleton_self o
    simpa using (List.mem_filter.1 this).2
  have hfilter : (s.orders.map (fun r => if r.Id = n then headerAfter r req clock else r)).filter
      (fun r => r.Id == n)
      = (s.orders.filter (fun r => r.Id == n)).map
          (fun r => if r.Id = n then headerAfter r req clock else r) := by
    rw [List.filter_map]
    congr 1
    apply List.filter_congr
    intro r _
    simp only [Function.comp_apply]
    by_cases hr : r.Id = n
    · rw [if_pos hr]; rfl
    · rw [if_neg hr]
  unfold Store.selectOneOrder
  rw [h1, hfilter, hf, List.map_cons, List.map_nil, if_pos hon]

theorem map_header_twice_erase (l : List Order) (n : Int) (req : NewOrderReq)
    (c1 c2 : Nat → Int) :
    ((l.map (fun r => if r.Id = n then headerAfter r req c1 else r)).map
        (fun r => if r.Id = n then headerAfter r req c2 else r)).map Order.eraseUpdatedAt
      = (l.map (fun r => if r.Id = n then headerAfter r req c1 else r)).map
          Order.eraseUpdatedAt := by
  simp only [List.map_map]
  apply List.map_congr_left
  intro r _
  simp only [Function.comp_apply]
  by_cases hr : r.Id = n
  · have h2 : (headerAfter r req c1).Id = n := hr
    rw [if_pos hr, if_pos h2]
    rfl
  · rw [if_neg hr, if_neg hr]

/-- A second pass over rows already written gives the same rows up to their
update time. -/
theorem updatedRows_twice (customerName : String) (c1 c2 : Nat → Int)
    (items : List OrderProduct) : ∀ (ps : List Product) (k : Nat),
    ∀ u2 ∈ updatedRows customerName c2 (updatedRows customerName c1 items ps k) ps k,
      ∃ u ∈ updatedRows customerName c1 items ps k,
        u2.Id = u.Id ∧ u2.eraseUpdatedAt = u.eraseUpdatedAt := by
  induction items with
  | nil =>
    intro ps k u2 hu
    rw [updatedRows_nil_left, updatedRows_nil_left] at hu
    simp at hu
  | cons item items ih =>
    intro ps k u2 hu
    cases ps with
    | nil => rw [updatedRows_nil_right] at hu; simp at hu
    | cons p ps =>
      rw [updatedRows, updatedRows, List.mem_cons] at hu
      rw [updatedRows]
      rcases hu with hu | hu
      · subst hu
        exact ⟨_, List.mem_cons_self _ _, rfl, rfl⟩
      · obtain ⟨u, hu1, hu2⟩ := ih ps (k + 1) u2 hu
        exact ⟨u, List.mem_cons_of_mem _ hu1, hu2⟩

theorem map_replaceRows_keys (us : List OrderProduct) (l : List OrderProduct) :
    (l.map (replaceRows us)).map (fun p => p.Id) = l.map (fun p => p.Id) := by
  rw [List.map_map]
  apply List.map_congr_left
  intro r _
  exact replaceRows_id us r

theorem Store.eraseUpdatedAt_congr {s1 s2 : Store}
    (h1 : s2.orders.map Order.eraseUpdatedAt = s1.orders.map Order.eraseUpdatedAt)
    (h2 : s2.orderProducts.map OrderProduct.eraseUpdatedAt
      = s1.orderProducts.map OrderProduct.eraseUpdatedAt)
    (h3 : s2.nextOrderId = s1.nextOrderId)
    (h4 : s2.nextOrderProductId = s1.nextOrderProductId) :
    s2.eraseUpdatedAt = s1.eraseUpdatedAt := by
  unfold Store.eraseUpdatedAt
  rw [h1, h2, h3, h4]

/-- A second Update after one that stopped once the header was written (no
line item found, or a product count that does not match). -/
theorem UpdateOrder_twice_header_only {s : Store} {id : String} {req : NewOrderReq}
    {n : Int} {o : Order} (c1 c2 : Nat → Int) (hid : Atoi id = some n)
    (ho : s.selectOneOrder n = some o)
    (hstop : (s.selectOrderProducts n).length = 0 ∨
      (s.selectOrderProducts n).length ≠ req.Products.length) :
    (UpdateOrder (s.updateOrder (headerAfter o req c1)) id req c2).1.eraseUpdatedAt
      = (s.updateOrder (headerAfter o req c1)).eraseUpdatedAt := by
  have hs1 : s.updateOrder (headerAfter o req c1) =
      { s with orders :=
          s.orders.map (fun r => if r.Id = n then headerAfter r req c1 else r) } :=
    updateOrder_headerAfter ho req c1
  have ho1 : (s.updateOrder (headerAfter o req c1)).selectOneOrder n
      = some (headerAfter o req c1) :=
    selectOneOrder_after_header ho req c1 (by rw [hs1])
  by_cases hz : headerAfter o req c1 = zeroOrder ∨
      (headerAfter o req c1).CustomerName.utf8ByteSize = 0
  · rw [UpdateOrder_of_blank_header hid ho1 hz]
  · rw [UpdateOrder_of_header hid ho1 hz]
    have hsame : (s.updateOrder (headerAfter o req c1)).selectOrderProducts n
        = s.selectOrderProducts n := rfl
    rw [hsame]
    have hres : ((s.updateOrder (headerAfter o req c1)).updateOrder
          (headerAfter (headerAfter o req c1) req c2)).eraseUpdatedAt
        = (s.updateOrder (headerAfter o req c1)).eraseUpdatedAt := by
      rw [updateOrder_headerAfter ho1 req c2]
      refine Store.eraseUpdatedAt_congr ?_ rfl rfl rfl
      show ((s.updateOrder (headerAfter o req c1)).orders.map _).map _ = _
      rw [hs1]
      exact map_header_twice_erase s.orders n req c1 c2
    rcases hstop with h0 | hne
    · rw [if_pos h0]; exact hres
    · by_cases h0 : (s.selectOrderProducts n).length = 0
      · rw [if_pos h0]; exact hres
      · rw [if_neg h0, if_pos hne]; exact hres

/-- A second Update after one that went through the line-item loop. -/
theorem UpdateOrder_twice_match {s : Store} {id : String} {req : NewOrderReq}
    {n : Int} {o : Order} (c1 c2 : Nat → Int)
    (hn : (s.orderProducts.map (fun p => p.Id)).Nodup) (hid : Atoi id = some n)
    (ho : s.selectOneOrder n = some o)
    (hz : ¬ (o = zeroOrder ∨ o.CustomerName.utf8ByteSize = 0))
    (hpos : (s.selectOrderProducts n).length ≠ 0)
    (hlen : (s.selectOrderProducts n).length = req.Products.length) :
    (UpdateOrder (UpdateOrder s id req c1).1 id req c2).1.eraseUpdatedAt
      = (UpdateOrder s id req c1).1.eraseUpdatedAt := by
  have hfirst : UpdateOrder s id req c1 = _ := UpdateOrder_of_match hn hid ho hz hpos hlen
  have hkeys : (s.selectOrderProducts n).map (fun u => u.Id)
      = (updatedRows req.CustomerName c1 (s.selectOrderProducts n) req.Products 0).map
          (fun u => u.Id) := (updatedRows_keys _ _ _ _ _ (le_of_eq hlen)).symm
  have horder : ∀ u ∈ updatedRows req.CustomerName c1 (s.selectOrderProducts n)
      req.Products 0, u.OrderId = n := by
    intro u hu
    obtain ⟨item, hitem, _, h2, _⟩ := updatedRows_mem _ _ _ _ _ u hu
    rw [h2]; exact (mem_selectOrderProducts.1 hitem).2
  have hafter := selectOrderProducts_after_writes s n hn _ hkeys horder
  generalize hs1 : (UpdateOrder s id req c1).1 = s1
  have e1 : s1.orders =
      s.orders.map (fun r => if r.Id = n then headerAfter r req c1 else r) := by
    rw [← hs1, hfirst]
  have e2 : s1.orderProducts = s.orderProducts.map
      (replaceRows (updatedRows req.CustomerName c1 (s.selectOrderProducts n)
        req.Products 0)) := by
    rw [← hs1, hfirst]
  have hsel1 : s1.selectOrderProducts n
      = updatedRows req.CustomerName c1 (s.selectOrderProducts n) req.Products 0 := by
    refine Eq.trans ?_ hafter
    unfold Store.selectOrderProducts
    rw [e2]
    rfl
  have ho1 : s1.selectOneOrder n = some (headerAfter o req c1) :=
    selectOneOrder_after_header ho req c1 e1
  have hn1 : (s1.orderProducts.map (fun p => p.Id)).Nodup := by
    rw [e2, map_replaceRows_keys]; exact hn
  by_cases hz1 : headerAfter o req c1 = zeroOrder ∨
      (headerAfter o req c1).CustomerName.utf8ByteSize = 0
  · rw [UpdateOrder_of_blank_header hid ho1 hz1]
  · have hl1 : (s1.selectOrderProducts n).length = req.Products.length := by
      rw [hsel1, updatedRows_length _ _ _ _ _ (le_of_eq hlen), hlen]
    have hp1 : (s1.selectOrderProducts n).length ≠ 0 := by
      rw [hl1, ← hlen]; exact hpos
    rw [UpdateOrder_of_match hn1 hid ho1 hz1 hp1 hl1]
    refine Store.eraseUpdatedAt_congr ?_ ?_ rfl rfl
    · show (s1.orders.map _).map _ = _
      rw [e1]
      exact map_header_twice_erase s.orders n req c1 c2
    · show (s1.orderProducts.map _).map _ = _
      rw [List.map_map]
      apply List.map_congr_left
      intro x hx
      simp only [Function.comp_apply]
      have hun2 : ((updatedRows req.CustomerName c2 (s1.selectOrderProducts n)
          req.Products 0).map (fun u => u.Id)).Nodup := by
        rw [updatedRows_keys _ _ _ _ _ (le_of_eq hl1)]
        exact selectOrderProducts_keys_nodup s1 n hn1
      by_cases hmem : x.Id ∈ (updatedRows req.CustomerName c2 (s1.selectOrderProducts n)
          req.Products 0).map (fun u => u.Id)
      · obtain ⟨u2, hu2, hk⟩ := List.mem_map.1 hmem
        rw [replaceRows_of_mem _ hun2 u2 hu2 x hk.symm]
        rw [hsel1] at hu2
        obtain ⟨u, hu, h1, h2⟩ := updatedRows_twice _ _ _ _ _ _ u2 hu2
        have hux : u ∈ s1.orderProducts :=
          (mem_selectOrderProducts.1 (hsel1 ▸ hu)).1
        have hxu : u = x := List.inj_on_of_nodup_map hn1 hux hx (h1.symm.trans hk)
        rw [← hxu]; exact h2
      · rw [replaceRows_of_not_mem _ x hmem]

/-- C8. In a store with primary keys, running `UpdateOrder` a second time with
the same identifier and the same request body leaves the store the first run
left, up to the `UpdatedAt` column of headers and line items. -/
theorem UpdateOrder_idempotent (s : Store) (hs : s.KeysUnique) (id : String)
    (req : NewOrderReq) (c1 c2 : Nat → Int) :
    (UpdateOrder (UpdateOrder s id req c1).1 id req c2).1.eraseUpdatedAt
      = (UpdateOrder s id req c1).1.eraseUpdatedAt := by
  cases hid : Atoi id with
  | none => rw [UpdateOrder_of_not_number hid, UpdateOrder_of_not_number hid]
  | some n =>
    cases ho : s.selectOneOrder n with
    | none => rw [UpdateOrder_of_no_header hid ho, UpdateOrder_of_no_header hid ho]
    | some o =>
      by_cases hz : o = zeroOrder ∨ o.CustomerName.utf8ByteSize = 0
      · rw [UpdateOrder_of_blank_header hid ho hz, UpdateOrder_of_blank_header hid ho hz]
      · by_cases h0 : (s.selectOrderProducts n).length = 0
        · rw [UpdateOrder_of_header hid ho hz, if_pos h0]
          exact UpdateOrder_twice_header_only c1 c2 hid ho (Or.inl h0)
        · by_cases hne : (s.selectOrderProducts n).length ≠ req.Products.length
          · rw [UpdateOrder_of_header hid ho hz, if_neg h0, if_pos hne]
            exact UpdateOrder_twice_header_only c1 c2 hid ho (Or.inr hne)
          · exact UpdateOrder_twice_match c1 c2 hs.2 hid ho hz h0 (not_not.1 hne)

theorem UpdateOrder_idempotent_witness :
    (UpdateOrder (UpdateOrder bobStore "2" ⟨"Robert", [sampleProduct, otherProduct]⟩
        sampleClock).1 "2" ⟨"Robert", [sampleProduct, otherProduct]⟩
        (fun k => 2000 + k)).1.eraseUpdatedAt
      = (UpdateOrder bobStore "2" ⟨"Robert", [sampleProduct, otherProduct]⟩
          sampleClock).1.eraseUpdatedAt :=
  UpdateOrder_idempotent bobStore ⟨by decide, by decide⟩ "2"
    ⟨"Robert", [sampleProduct, otherProduct]⟩ sampleClock (fun k => 2000 + k)

end OrderService
